import Mathlib

/-!
Verification of the steam-games-exporter asynchronous enrichment pipeline.

Shallow embedding of the core logic of the repository:
  * `sge/db.py`    — the three record sets (`Request` / job table, `Queue`,
    `GameInfo` cache), `GameInfo.from_json` (including the release-date
    normalization), and `in_query_chunked`;
  * `sge/views.py` — `check_for_missing_ids`, `prepare_extended_export`
    (submit), `check_extended_export` (poll, together with the `load_job`
    token lookup), `finalize_extended_export`;
  * `sge/__init__.py` — `cleanup` (the scheduled maintenance pass),
    `GameInfoFetcher.notify` (the wake guard) and the batch-processing loop
    of `GameInfoFetcher.run`.

Database rows are lists of records; each SQL statement the code issues is
embedded as the corresponding pure list operation.  SQLAlchemy sessions and
commits disappear: every logical transaction of the source becomes one pure
state-to-state function.  Job uuids (random UUID4 strings in the source) are
modelled as `Nat` tokens whose freshness is a hypothesis of the submit
transition.  Wall-clock reads (`int(time.time())`) become explicit `now`
parameters.  The concurrency of the real system is modelled as the
sequential interleaving of those atomic transactions (a transition system
`Step` / `Reachable` below).
-/

/-- One entry of the steam profile's `games` list, restricted to
`PROFILE_RELEVANT_FIELDS` of `sge/views.py` (the per-item session metadata
the job snapshot keeps for the final merge). -/
structure ProfileRow where
  appid : Nat
  name : String
  playtime_forever : Nat
  playtime_windows_forever : Nat
  playtime_mac_forever : Nat
  playtime_linux_forever : Nat
deriving DecidableEq, Repr

/-- Row of table `requests_queue` (`db.Request`): one outstanding export job.
`generated_file` is always NULL in the source and is omitted. -/
structure Request where
  job_uuid : Nat
  timestamp : Nat
  games_json : List ProfileRow
  export_format : String
deriving DecidableEq, Repr

/-- Row of table `games_queue` (`db.Queue`).  In the source `appid` is the
single primary-key column; `job_uuid` and `timestamp` are plain columns. -/
structure QueueEntry where
  appid : Nat
  job_uuid : Nat
  timestamp : Nat
deriving DecidableEq, Repr

/-- Row of table `games_info` (`db.GameInfo`), with `appid` the primary key.
All content columns are nullable in the schema, hence `Option`. -/
structure GameInfo where
  appid : Nat
  name : Option String
  type : Option String
  developers : Option String
  publishers : Option String
  is_free : Option Bool
  on_linux : Option Bool
  on_mac : Option Bool
  on_windows : Option Bool
  supported_languages : Option String
  controller_support : Option String
  age_gate : Option Nat
  categories : Option String
  genres : Option String
  release_date : Option String
  timestamp : Nat
  unavailable : Bool
deriving DecidableEq, Repr

/-- The persistent store: the three tables of `sge/db.py`. -/
structure Store where
  requests : List Request
  queue : List QueueEntry
  cache : List GameInfo
deriving DecidableEq, Repr

def emptyStore : Store := ⟨[], [], []⟩

/-- `db_session.get(db.GameInfo, appid)` succeeds: a cache row with this
primary key exists. -/
def Store.cached (s : Store) (a : Nat) : Bool :=
  s.cache.any (fun g => g.appid == a)

/-- Some queue row carries this appid. -/
def Store.queued (s : Store) (a : Nat) : Bool :=
  s.queue.any (fun q => q.appid == a)

theorem Store.cached_iff (s : Store) (a : Nat) :
    s.cached a = true ↔ ∃ g ∈ s.cache, g.appid = a := by
  simp [Store.cached, List.any_eq_true, beq_iff_eq]

theorem Store.queued_iff (s : Store) (a : Nat) :
    s.queued a = true ↔ ∃ q ∈ s.queue, q.appid = a := by
  simp [Store.queued, List.any_eq_true, beq_iff_eq]

/-! ## `sge/db.py`: constants and chunked queries -/

/-- `SQLITE_MAX_VARIABLE_NUMBER` of `sge/db.py`.  The source raises it to
32766 when the linked SQLite is at least 3.32; we model the baseline value.
Every theorem below only needs the constant to be positive. -/
def SQLITE_MAX_VARIABLE_NUMBER : Nat := 999

/-- One un-chunked `select ... where key in (batch)` against a table, the
semantics of the query built inside `in_query_chunked`: the rows of the
table whose key occurs in the batch, in table order. -/
def inQuery {α : Type} (table : List α) (key : α → Nat) (batch : List Nat) : List α :=
  table.filter (fun r => decide (key r ∈ batch))

/-- The `while in_value: ... in_value = in_value[batch_size:]` loop of
`in_query_chunked`, fuelled by the length of the initial list (for a
positive batch size the list shrinks every iteration; the source would loop
forever on `batch_size = 0`). -/
def inQueryChunkedGo {α : Type} (table : List α) (key : α → Nat) (bs : Nat) :
    Nat → List Nat → List α
  | 0, _ => []
  | _, [] => []
  | fuel + 1, in_value =>
      inQuery table key (in_value.take bs)
        ++ inQueryChunkedGo table key bs fuel (in_value.drop bs)

/-- `db.in_query_chunked`: perform the `in_()` query in fixed-size chunks
and concatenate the per-chunk results. -/
def in_query_chunked {α : Type} (table : List α) (key : α → Nat)
    (in_value : List Nat) (batch_size : Nat) : List α :=
  inQueryChunkedGo table key batch_size in_value.length in_value

/-- The consecutive fixed-size slices of a list (the successive values of
`in_value[:batch_size]` inside the loop), with the same fuel pattern. -/
def slicesGo (bs : Nat) : Nat → List Nat → List (List Nat)
  | 0, _ => []
  | _, [] => []
  | fuel + 1, l => l.take bs :: slicesGo bs fuel (l.drop bs)

def consecutiveSlices (bs : Nat) (l : List Nat) : List (List Nat) :=
  slicesGo bs l.length l

/-- Attempting to insert a row into `games_queue`: `appid` is the table's
only primary-key column, so SQLite rejects the insert (IntegrityError) when
a row with this appid already exists. -/
def queueInsert (rows : List QueueEntry) (e : QueueEntry) : Option (List QueueEntry) :=
  if rows.any (fun q => q.appid == e.appid) then none else some (rows ++ [e])

/-! ## `sge/__init__.py`: cleanup and the wake guard -/

/-- `COOKIE_MAX_AGE` (2 days), the retention window used by `cleanup`. -/
def COOKIE_MAX_AGE : Nat := 172800

/-- `sge.cleanup`: delete every `db.Request` row with
`timestamp <= int(time.time()) - COOKIE_MAX_AGE`, then VACUUM (a physical
storage operation with no logical effect, so it does not appear here). -/
def cleanup (now : Nat) (s : Store) : Store :=
  { s with requests :=
      s.requests.filter (fun r => decide (now - COOKIE_MAX_AGE < r.timestamp)) }

/-- The guard of `GameInfoFetcher.notify`: the condition under which the
call reaches `condition.notify_all()` and hence wakes the fetcher thread.
Source: `if not self.rate_limited or (force and self.rate_limited):`. -/
def notifyWakes (rate_limited : Bool) (force : Bool) : Bool :=
  !rate_limited || (force && rate_limited)

/-- C8: The maintenance cleanup with cutoff `now - COOKIE_MAX_AGE` deletes
every job row whose creation timestamp is at most the cutoff and no job row
whose creation timestamp is above the cutoff, leaves the queue and cache
tables untouched, is a no-op on the empty store, and is idempotent. -/
theorem cleanup_retention_spec (now : Nat) (s : Store) :
    (∀ r ∈ (cleanup now s).requests, now - COOKIE_MAX_AGE < r.timestamp)
    ∧ (∀ r ∈ s.requests, now - COOKIE_MAX_AGE < r.timestamp →
        r ∈ (cleanup now s).requests)
    ∧ (∀ r ∈ s.requests, r.timestamp ≤ now - COOKIE_MAX_AGE →
        r ∉ (cleanup now s).requests)
    ∧ (cleanup now s).queue = s.queue
    ∧ (cleanup now s).cache = s.cache
    ∧ cleanup now emptyStore = emptyStore
    ∧ cleanup now (cleanup now s) = cleanup now s := by
  refine ⟨?_, ?_, ?_, rfl, rfl, rfl, ?_⟩
  · intro r hr
    have := (List.mem_filter.mp hr).2
    simpa using this
  · intro r hr h
    exact List.mem_filter.mpr ⟨hr, by simpa using h⟩
  · intro r _ h hmem
    have := (List.mem_filter.mp hmem).2
    simp at this
    omega
  · show Store.mk _ _ _ = Store.mk _ _ _
    simp only [cleanup, List.filter_filter, Bool.and_self]

/-- C9: a non-forced wake notification does not reach `notify_all` while the
rate-limited flag is set; a forced notification always does, whether or not
the flag is set; and a non-forced one with the flag clear also does. -/
theorem notify_wake_semantics :
    notifyWakes true false = false
    ∧ (∀ rl, notifyWakes rl true = true)
    ∧ notifyWakes false false = true := by
  refine ⟨rfl, ?_, rfl⟩
  intro rl
  cases rl <;> rfl

/-! ## Chunked-query lemmas (C3) -/

/-- Unfolding the fuelled loop once the fuel dominates the list length. -/
theorem inQueryChunkedGo_eq {α : Type} (table : List α) (key : α → Nat) (bs : Nat)
    (hbs : 1 ≤ bs) :
    ∀ fuel (l : List Nat), l.length ≤ fuel →
      inQueryChunkedGo table key bs fuel l
        = ((slicesGo bs fuel l).map (inQuery table key)).flatten := by
  intro fuel
  induction fuel with
  | zero =>
      intro l hl
      have : l = [] := List.eq_nil_of_length_eq_zero (Nat.le_zero.mp hl)
      subst this
      rfl
  | succ n ih =>
      intro l hl
      cases l with
      | nil => rfl
      | cons x xs =>
          have hdrop : ((x :: xs).drop bs).length ≤ n := by
            rw [List.length_drop]
            simp only [List.length_cons] at hl ⊢
            omega
          simp only [inQueryChunkedGo, slicesGo, List.map_cons, List.flatten_cons]
          rw [ih _ hdrop]

/-- Membership in the fuelled chunked query. -/
theorem mem_inQueryChunkedGo {α : Type} (table : List α) (key : α → Nat) (bs : Nat)
    (hbs : 1 ≤ bs) (r : α) :
    ∀ fuel (l : List Nat), l.length ≤ fuel →
      (r ∈ inQueryChunkedGo table key bs fuel l ↔ r ∈ table ∧ key r ∈ l) := by
  intro fuel
  induction fuel with
  | zero =>
      intro l hl
      have : l = [] := List.eq_nil_of_length_eq_zero (Nat.le_zero.mp hl)
      subst this
      simp [inQueryChunkedGo]
  | succ n ih =>
      intro l hl
      cases l with
      | nil => simp [inQueryChunkedGo]
      | cons x xs =>
          have hdrop : ((x :: xs).drop bs).length ≤ n := by
            rw [List.length_drop]
            simp only [List.length_cons] at hl ⊢
            omega
          simp only [inQueryChunkedGo, List.mem_append, ih _ hdrop,
            inQuery, List.mem_filter, decide_eq_true_eq]
          constructor
          · rintro (⟨hr, hk⟩ | ⟨hr, hk⟩)
            · exact ⟨hr, List.mem_of_mem_take hk⟩
            · exact ⟨hr, List.mem_of_mem_drop hk⟩
          · rintro ⟨hr, hk⟩
            rw [← List.take_append_drop bs (x :: xs), List.mem_append] at hk
            rcases hk with hk | hk
            · exact Or.inl ⟨hr, hk⟩
            · exact Or.inr ⟨hr, hk⟩

/-- Membership in `in_query_chunked` equals membership in the single
un-chunked query, for any positive batch size. -/
theorem mem_in_query_chunked {α : Type} (table : List α) (key : α → Nat)
    (l : List Nat) (bs : Nat) (hbs : 1 ≤ bs) (r : α) :
    r ∈ in_query_chunked table key l bs ↔ r ∈ table ∧ key r ∈ l :=
  mem_inQueryChunkedGo table key bs hbs r l.length l (Nat.le_refl _)

/-- An all-NULL cache row with the given key, as the source's
`db.GameInfo(appid=appid, timestamp=..., unavailable=True)` constructor
builds for an item the store reports as unavailable. -/
def unavailableRow (appid now : Nat) : GameInfo :=
  ⟨appid, none, none, none, none, none, none, none, none, none, none, none,
   none, none, none, now, true⟩

/-- C3 counterexample: with the table holding rows for appids 1 and 2 in
that order, querying the keys `[2, 1]` with batch size 1 returns the rows in
key order (concatenation of the per-batch results), while the single
un-chunked in-query returns them in table order — so the chunked result
does not equal the un-chunked result, refuting the claim at this input. -/
theorem in_query_chunked_order_counterexample :
    in_query_chunked [unavailableRow 1 0, unavailableRow 2 0]
        (fun g => g.appid) [2, 1] 1
      = [unavailableRow 2 0, unavailableRow 1 0]
    ∧ inQuery [unavailableRow 1 0, unavailableRow 2 0]
        (fun g => g.appid) [2, 1]
      = [unavailableRow 1 0, unavailableRow 2 0]
    ∧ in_query_chunked [unavailableRow 1 0, unavailableRow 2 0]
        (fun g => g.appid) [2, 1] 1
      ≠ inQuery [unavailableRow 1 0, unavailableRow 2 0]
        (fun g => g.appid) [2, 1] := by
  refine ⟨by decide, by decide, by decide⟩

/-- C3 (amended): for every list of identifiers and every positive batch
size, `in_query_chunked` returns exactly the concatenation of the per-batch
query results over consecutive fixed-size slices of the input list, and its
result has the same members as the single un-chunked in-query over the whole
list (the order, and the multiplicity of rows matched by keys repeated
across chunks, may differ). -/
theorem in_query_chunked_spec {α : Type} (table : List α) (key : α → Nat)
    (l : List Nat) (bs : Nat) (hbs : 1 ≤ bs) (r : α) :
    in_query_chunked table key l bs
      = ((consecutiveSlices bs l).map (inQuery table key)).flatten
    ∧ (r ∈ in_query_chunked table key l bs ↔ r ∈ inQuery table key l) := by
  constructor
  · exact inQueryChunkedGo_eq table key bs hbs l.length l (Nat.le_refl _)
  · rw [mem_in_query_chunked table key l bs hbs r]
    simp [inQuery, List.mem_filter]

/-- C3 witness: the amended statement instantiated at a concrete table,
key list and batch size. -/
theorem in_query_chunked_spec_witness :
    1 ≤ 1
    ∧ (in_query_chunked [unavailableRow 1 0, unavailableRow 2 0]
          (fun g => g.appid) [2, 1] 1
        = ((consecutiveSlices 1 [2, 1]).map
            (inQuery [unavailableRow 1 0, unavailableRow 2 0] (fun g => g.appid))).flatten
      ∧ (unavailableRow 1 0 ∈ in_query_chunked [unavailableRow 1 0, unavailableRow 2 0]
            (fun g => g.appid) [2, 1] 1
          ↔ unavailableRow 1 0 ∈ inQuery [unavailableRow 1 0, unavailableRow 2 0]
              (fun g => g.appid) [2, 1])) :=
  ⟨by decide,
   in_query_chunked_spec [unavailableRow 1 0, unavailableRow 2 0]
     (fun g => g.appid) [2, 1] 1 (by decide) (unavailableRow 1 0)⟩

/-! ## Queue primary key (C2) -/

/-- C2 counterexample: a queue row for appid 1 owned by job 10 exists; the
insert of a second row for the same appid under the different job token 11
is rejected by the primary key (while an insert for a different appid
succeeds) — the record set does not admit duplicate identifiers across
jobs. -/
theorem queue_duplicate_appid_counterexample :
    queueInsert [⟨1, 10, 5⟩] ⟨1, 11, 6⟩ = none
    ∧ (⟨1, 10, 5⟩ : QueueEntry).job_uuid ≠ (⟨1, 11, 6⟩ : QueueEntry).job_uuid
    ∧ queueInsert [⟨1, 10, 5⟩] ⟨2, 11, 6⟩ = some [⟨1, 10, 5⟩, ⟨2, 11, 6⟩] := by
  refine ⟨by decide, by decide, by decide⟩

/-- C2 (amended): the queue table keys entries by the game identifier alone
(`appid` is the only primary-key column), so the record set admits at most
one entry per identifier regardless of job token: inserting an entry whose
identifier is already present fails, whatever the job tokens, and an insert
succeeds exactly when no existing entry carries the identifier. -/
theorem queue_key_single_identifier (rows : List QueueEntry) (e : QueueEntry) :
    (queueInsert rows e = none ↔ ∃ q ∈ rows, q.appid = e.appid)
    ∧ ((∀ q ∈ rows, q.appid ≠ e.appid) → queueInsert rows e = some (rows ++ [e])) := by
  constructor
  · constructor
    · intro h
      by_cases hc : rows.any (fun q => q.appid == e.appid)
      · simpa [List.any_eq_true, beq_iff_eq] using hc
      · simp [queueInsert, hc] at h
    · intro ⟨q, hq, hqa⟩
      have : rows.any (fun q => q.appid == e.appid) = true := by
        simp only [List.any_eq_true, beq_iff_eq]
        exact ⟨q, hq, hqa⟩
      simp [queueInsert, this]
  · intro h
    have : rows.any (fun q => q.appid == e.appid) = false := by
      simp only [List.any_eq_false, beq_iff_eq]
      exact h
    simp [queueInsert, this]

/-- C2 witness: the amended statement instantiated at a concrete row set and
entry, with the no-duplicate antecedent discharged. -/
theorem queue_key_single_identifier_witness :
    (queueInsert [⟨1, 10, 5⟩] ⟨2, 11, 6⟩ = none
      ↔ ∃ q ∈ [(⟨1, 10, 5⟩ : QueueEntry)], q.appid = (⟨2, 11, 6⟩ : QueueEntry).appid)
    ∧ ((∀ q ∈ [(⟨1, 10, 5⟩ : QueueEntry)], q.appid ≠ (⟨2, 11, 6⟩ : QueueEntry).appid) →
        queueInsert [⟨1, 10, 5⟩] ⟨2, 11, 6⟩ = some [⟨1, 10, 5⟩, ⟨2, 11, 6⟩]) :=
  queue_key_single_identifier [⟨1, 10, 5⟩] ⟨2, 11, 6⟩

/-- C8 witness: the cleanup specification instantiated at a concrete time
and store (one expired job, one live job). -/
theorem cleanup_retention_spec_witness :
    (∀ r ∈ (cleanup 200000 ⟨[⟨0, 100, [], "csv"⟩, ⟨1, 199999, [], "xls"⟩], [], []⟩).requests,
        200000 - COOKIE_MAX_AGE < r.timestamp)
    ∧ (∀ r ∈ [(⟨0, 100, [], "csv"⟩ : Request), ⟨1, 199999, [], "xls"⟩],
        200000 - COOKIE_MAX_AGE < r.timestamp →
        r ∈ (cleanup 200000 ⟨[⟨0, 100, [], "csv"⟩, ⟨1, 199999, [], "xls"⟩], [], []⟩).requests)
    ∧ (∀ r ∈ [(⟨0, 100, [], "csv"⟩ : Request), ⟨1, 199999, [], "xls"⟩],
        r.timestamp ≤ 200000 - COOKIE_MAX_AGE →
        r ∉ (cleanup 200000 ⟨[⟨0, 100, [], "csv"⟩, ⟨1, 199999, [], "xls"⟩], [], []⟩).requests)
    ∧ (cleanup 200000 ⟨[⟨0, 100, [], "csv"⟩, ⟨1, 199999, [], "xls"⟩], [], []⟩).queue = []
    ∧ (cleanup 200000 ⟨[⟨0, 100, [], "csv"⟩, ⟨1, 199999, [], "xls"⟩], [], []⟩).cache = []
    ∧ cleanup 200000 emptyStore = emptyStore
    ∧ cleanup 200000 (cleanup 200000 ⟨[⟨0, 100, [], "csv"⟩, ⟨1, 199999, [], "xls"⟩], [], []⟩)
        = cleanup 200000 ⟨[⟨0, 100, [], "csv"⟩, ⟨1, 199999, [], "xls"⟩], [], []⟩ :=
  cleanup_retention_spec 200000 ⟨[⟨0, 100, [], "csv"⟩, ⟨1, 199999, [], "xls"⟩], [], []⟩

/-! ## `db.GameInfo.from_json` and the release-date normalization (C10)

`time.strptime` is embedded for exactly the three patterns of
`KNOWN_STEAM_DATE_FORMATS`.  CPython's `_strptime` compiles each pattern to
a regular expression matched case-insensitively against the whole string:
a blank in the pattern becomes one-or-more whitespace, `%d` matches one or
two digits with value 1..31, `%b` matches a month abbreviation
(jan..dec, case-insensitive), `%Y` matches exactly four digits, and a field
absent from the pattern keeps its default (day defaults to 1).  Whitespace
is modelled as the space character, the only whitespace the normalized
Steam date strings contain. -/

/-- Split a character list at every space, keeping empty pieces. -/
def splitOnSpace : List Char → List (List Char)
  | [] => [[]]
  | c :: rest =>
      let r := splitOnSpace rest
      if c = ' ' then [] :: r
      else
        match r with
        | [] => [[c]]
        | t :: ts => (c :: t) :: ts

/-- The whitespace-separated fields of the string, provided the string
neither starts nor ends with a separator (the compiled pattern has no
leading whitespace and must consume the whole string); interior runs of
separators collapse, as one-or-more whitespace does. -/
def fieldTokens (s : List Char) : Option (List (List Char)) :=
  let parts := splitOnSpace s
  match parts with
  | [] => none
  | first :: _ =>
      if first = [] then none
      else
        match parts.getLast? with
        | none => none
        | some last =>
            if last = [] then none
            else some (parts.filter (fun t => decide (t ≠ [])))

/-- Numeric value of an all-digit token. -/
def digitsVal (tok : List Char) : Nat :=
  tok.foldl (fun a c => a * 10 + (c.toNat - 48)) 0

def parseDigits (tok : List Char) : Option Nat :=
  if tok ≠ [] ∧ tok.all Char.isDigit then some (digitsVal tok) else none

/-- `%d`: one or two digits, value 1..31. -/
def parseDay (tok : List Char) : Option Nat :=
  match parseDigits tok with
  | some v => if tok.length ≤ 2 ∧ 1 ≤ v ∧ v ≤ 31 then some v else none
  | none => none

/-- `%Y`: exactly four digits. -/
def parseYear (tok : List Char) : Option Nat :=
  if tok.length = 4 then parseDigits tok else none

/-- `%b`: a C-locale month abbreviation, case-insensitively. -/
def monthFromAbbrev (tok : List Char) : Option Nat :=
  let lower := tok.map Char.toLower
  if lower = "jan".data then some 1
  else if lower = "feb".data then some 2
  else if lower = "mar".data then some 3
  else if lower = "apr".data then some 4
  else if lower = "may".data then some 5
  else if lower = "jun".data then some 6
  else if lower = "jul".data then some 7
  else if lower = "aug".data then some 8
  else if lower = "sep".data then some 9
  else if lower = "oct".data then some 10
  else if lower = "nov".data then some 11
  else if lower = "dec".data then some 12
  else none

/-- `time.strptime(s, fmt)` for the three patterns the source tries,
returning `(year, month, day)`; `none` both for a non-matching string and
for a pattern outside the known list. -/
def strptime (s : String) (fmt : String) : Option (Nat × Nat × Nat) :=
  match fieldTokens s.data with
  | none => none
  | some toks =>
      if fmt = "%d %b %Y" then
        match toks with
        | [d, b, y] =>
            match parseDay d, monthFromAbbrev b, parseYear y with
            | some dd, some mm, some yy => some (yy, mm, dd)
            | _, _, _ => none
        | _ => none
      else if fmt = "%b %d %Y" then
        match toks with
        | [b, d, y] =>
            match monthFromAbbrev b, parseDay d, parseYear y with
            | some mm, some dd, some yy => some (yy, mm, dd)
            | _, _, _ => none
        | _ => none
      else if fmt = "%b %Y" then
        match toks with
        | [b, y] =>
            match monthFromAbbrev b, parseYear y with
            | some mm, some yy => some (yy, mm, 1)
            | _, _ => none
        | _ => none
      else none

def KNOWN_STEAM_DATE_FORMATS : List String := ["%d %b %Y", "%b %d %Y", "%b %Y"]

/-- The `for _date_format in KNOWN_STEAM_DATE_FORMATS: try ... break` loop:
the first pattern that parses wins. -/
def tryFormats : List String → String → Option (Nat × Nat × Nat)
  | [], _ => none
  | f :: fs, s =>
      match strptime s f with
      | some r => some r
      | none => tryFormats fs s

/-- `release_date.replace(",", "").replace(".", "").title()`: both replaces
remove every occurrence of a single character.  `.title()` only changes
letter case; since the pattern matching is case-insensitive it affects
neither whether a pattern matches nor the parsed value, so no separate
model of it is needed. -/
def normalizeDate (s : String) : String :=
  String.mk (s.data.filter (fun c => decide (c ≠ ',' ∧ c ≠ '.')))

/-- Two-digit zero-padded field of `time.strftime`. -/
def pad2 (n : Nat) : String :=
  if n < 10 then "0" ++ toString n else toString n

/-- `time.strftime("%Y/%m/%d", t)`. -/
def strftimeYmd (ymd : Nat × Nat × Nat) : String :=
  toString ymd.1 ++ "/" ++ pad2 ymd.2.1 ++ "/" ++ pad2 ymd.2.2

/-- The whole release-date block of `GameInfo.from_json`: `if release_date:`
(absent and empty strings pass through), try the known patterns on the
normalized string, store the reformatted date on the first success and the
raw upstream string unchanged otherwise. -/
def processReleaseDate (rd : Option String) : Option String :=
  match rd with
  | none => none
  | some d =>
      if d = "" then some d
      else
        match tryFormats KNOWN_STEAM_DATE_FORMATS (normalizeDate d) with
        | some ymd => some (strftimeYmd ymd)
        | none => some d

/-- `str.replace("<br>", "\n")`, scanning left to right. -/
def replaceBr : List Char → List Char
  | '<' :: 'b' :: 'r' :: '>' :: rest => '\n' :: replaceBr rest
  | c :: rest => c :: replaceBr rest
  | [] => []

/-- Scan for the next unquoted `>` as `re` does for the lazy `.*?>`: `.`
does not cross a newline, so the match attempt fails at one. -/
def findGt : List Char → Option (List Char)
  | [] => none
  | c :: rest =>
      if c = '>' then some rest
      else if c = '\n' then none
      else findGt rest

/-- `re.sub(r"<.*?>", "", s)`: drop every shortest `<`..`>` span not
containing a newline; a `<` that opens no such span stays.  Fuelled by the
string length (each successful match consumes at least two characters). -/
def stripHtmlGo : Nat → List Char → List Char
  | 0, l => l
  | _ + 1, [] => []
  | fuel + 1, c :: rest =>
      if c = '<' then
        match findGt rest with
        | some rest2 => stripHtmlGo fuel rest2
        | none => c :: stripHtmlGo fuel rest
      else c :: stripHtmlGo fuel rest

def stripSimpleHtml (s : String) : String :=
  String.mk (stripHtmlGo s.data.length s.data)

/-- The `platforms` sub-object of the store response. -/
structure Platforms where
  linux : Bool
  mac : Bool
  windows : Bool
deriving DecidableEq, Repr

/-- The `release_date` sub-object; `coming_soon` is never read. -/
structure ReleaseDateJson where
  date : Option String
deriving DecidableEq, Repr

/-- The fields of `json["<appid>"]["data"]` that `GameInfo.from_json`
reads; `Option` marks a key that may be absent.  `categories` and `genres`
carry the `description` values of their object lists, the only part the
source reads. -/
structure InfoJson where
  name : Option String
  type : Option String
  developers : Option (List String)
  publishers : Option (List String)
  is_free : Option Bool
  platforms : Option Platforms
  supported_languages : Option String
  controller_support : Option String
  required_age : Option Nat
  categories : Option (List String)
  genres : Option (List String)
  release_date : Option ReleaseDateJson
deriving DecidableEq, Repr

/-- `db.GameInfo.from_json(appid, info_json)` (the `int(time.time())` read
becomes the `now` argument). -/
def GameInfo.from_json (appid now : Nat) (j : InfoJson) : GameInfo where
  appid := appid
  name := j.name
  type := j.type
  developers := j.developers.map (String.intercalate ",\n")
  publishers := some (String.intercalate ",\n" (j.publishers.getD []))
  is_free := some (j.is_free.getD false)
  on_linux := j.platforms.map (fun p => p.linux)
  on_mac := j.platforms.map (fun p => p.mac)
  on_windows := j.platforms.map (fun p => p.windows)
  supported_languages :=
    some (stripSimpleHtml (String.mk (replaceBr (j.supported_languages.getD "").data)))
  controller_support := j.controller_support
  age_gate := j.required_age
  categories := j.categories.map (String.intercalate ",\n")
  genres := j.genres.map (String.intercalate ",\n")
  release_date := processReleaseDate (j.release_date.bind (fun r => r.date))
  timestamp := now
  unavailable := false

/-- The format loop fails exactly when every pattern in the list fails. -/
theorem tryFormats_eq_none_iff (s : String) :
    ∀ fs : List String, tryFormats fs s = none ↔ ∀ f ∈ fs, strptime s f = none := by
  intro fs
  induction fs with
  | nil => simp [tryFormats]
  | cons f fs ih =>
      simp only [tryFormats]
      cases h : strptime s f with
      | some r =>
          simp only [h, reduceCtorEq, false_iff]
          intro hall
          have hf := hall f (List.mem_cons_self f fs)
          rw [h] at hf
          exact Option.noConfusion hf
      | none =>
          simp only [h]
          rw [ih]
          constructor
          · intro hall g hg
            rcases List.mem_cons.mp hg with hg1 | hg2
            · rw [hg1]; exact h
            · exact hall g hg2
          · intro hall g hg
            exact hall g (List.mem_cons.mpr (Or.inr hg))

/-- The release-date unit checks of the repository's test suite, evaluated
on the embedding: each known layout is reformatted to `%Y/%m/%d`, and a
date in an unknown locale is stored raw. -/
theorem release_date_examples :
    processReleaseDate (some "2 Oct, 2020") = some "2020/10/02"
    ∧ processReleaseDate (some "26 MAR 2018") = some "2018/03/26"
    ∧ processReleaseDate (some "7. Aug. 2020") = some "2020/08/07"
    ∧ processReleaseDate (some "May 22, 2017") = some "2017/05/22"
    ∧ processReleaseDate (some "Nov 2014") = some "2014/11/01"
    ∧ processReleaseDate (some "20 берез. 2007") = some "20 берез. 2007"
    ∧ processReleaseDate (some "") = some "" := by
  refine ⟨by decide, by decide, by decide, by decide, by decide, by decide, by decide⟩

/-- C10: building a cache row from fetched JSON is total in the release
date: whatever string the upstream metadata carries, `from_json` produces a
record keyed by the requested appid; when the normalized string matches one
of the known format patterns the stored release date is the `%Y/%m/%d`
reformatting of the first match, and when no known pattern matches the raw
upstream string is stored unchanged. -/
theorem from_json_release_date (appid now : Nat) (j : InfoJson) (rd : String)
    (h1 : j.release_date.bind (fun r => r.date) = some rd) :
    (GameInfo.from_json appid now j).appid = appid
    ∧ (GameInfo.from_json appid now j).timestamp = now
    ∧ (GameInfo.from_json appid now j).unavailable = false
    ∧ ((∀ f ∈ KNOWN_STEAM_DATE_FORMATS, strptime (normalizeDate rd) f = none) →
        (GameInfo.from_json appid now j).release_date = some rd)
    ∧ (∀ ymd, tryFormats KNOWN_STEAM_DATE_FORMATS (normalizeDate rd) = some ymd →
        rd ≠ "" →
        (GameInfo.from_json appid now j).release_date = some (strftimeYmd ymd)) := by
  refine ⟨rfl, rfl, rfl, ?_, ?_⟩
  · intro hall
    have hnone : tryFormats KNOWN_STEAM_DATE_FORMATS (normalizeDate rd) = none :=
      (tryFormats_eq_none_iff (normalizeDate rd) KNOWN_STEAM_DATE_FORMATS).mpr hall
    show processReleaseDate (j.release_date.bind (fun r => r.date)) = some rd
    rw [h1]
    by_cases hrd : rd = ""
    · simp [processReleaseDate, hrd]
    · simp [processReleaseDate, hrd, hnone]
  · intro ymd hymd hrd
    show processReleaseDate (j.release_date.bind (fun r => r.date)) = some (strftimeYmd ymd)
    rw [h1]
    simp [processReleaseDate, hrd, hymd]

/-- C10 witness: the theorem applied to the concrete store response of the
repository's test fixture, whose release date is `"2 Oct, 2020"`. -/
theorem from_json_release_date_witness :
    (GameInfo.from_json 1 100
        ⟨some "App 1", some "game", none, none, none, none, none, some "full",
         some 0, none, none, some ⟨some "2 Oct, 2020"⟩⟩).appid = 1
    ∧ (GameInfo.from_json 1 100
        ⟨some "App 1", some "game", none, none, none, none, none, some "full",
         some 0, none, none, some ⟨some "2 Oct, 2020"⟩⟩).timestamp = 100
    ∧ (GameInfo.from_json 1 100
        ⟨some "App 1", some "game", none, none, none, none, none, some "full",
         some 0, none, none, some ⟨some "2 Oct, 2020"⟩⟩).unavailable = false
    ∧ ((∀ f ∈ KNOWN_STEAM_DATE_FORMATS,
          strptime (normalizeDate "2 Oct, 2020") f = none) →
        (GameInfo.from_json 1 100
          ⟨some "App 1", some "game", none, none, none, none, none, some "full",
           some 0, none, none, some ⟨some "2 Oct, 2020"⟩⟩).release_date
          = some "2 Oct, 2020")
    ∧ (∀ ymd, tryFormats KNOWN_STEAM_DATE_FORMATS (normalizeDate "2 Oct, 2020") = some ymd →
        "2 Oct, 2020" ≠ "" →
        (GameInfo.from_json 1 100
          ⟨some "App 1", some "game", none, none, none, none, none, some "full",
           some 0, none, none, some ⟨some "2 Oct, 2020"⟩⟩).release_date
          = some (strftimeYmd ymd)) :=
  from_json_release_date 1 100
    ⟨some "App 1", some "game", none, none, none, none, none, some "full",
     some 0, none, none, some ⟨some "2 Oct, 2020"⟩⟩ "2 Oct, 2020" rfl

/-! ## `sge/views.py`: export assembly, submit and poll -/

/-- One cell of the combined table. -/
inductive Cell where
  | str (v : String)
  | nat (v : Nat)
  | bool (v : Bool)
  | null
deriving DecidableEq, Repr

def cellOfOptStr : Option String → Cell
  | some v => Cell.str v
  | none => Cell.null

def cellOfOptBool : Option Bool → Cell
  | some v => Cell.bool v
  | none => Cell.null

def cellOfOptNat : Option Nat → Cell
  | some v => Cell.nat v
  | none => Cell.null

/-- `f"https://store.steampowered.com/app/{appid}"`. -/
def storeUrl (a : Nat) : String :=
  "https://store.steampowered.com/app/" ++ toString a

/-- The header row: `PROFILE_RELEVANT_FIELDS + GAMEINFO_RELEVANT_FIELDS`
with the first entry replaced by `"store_url"`.  `GAMEINFO_RELEVANT_FIELDS`
is the `games_info` column list minus name, appid, timestamp and
unavailable, in schema order. -/
def headerCells : List Cell :=
  ["store_url", "name", "playtime_forever", "playtime_windows_forever",
   "playtime_mac_forever", "playtime_linux_forever",
   "type", "developers", "publishers", "is_free", "on_linux", "on_mac",
   "on_windows", "supported_languages", "controller_support", "age_gate",
   "categories", "genres", "release_date"].map Cell.str

/-- One data row of the combined table: the profile fields of the json row
(appid turned into the store link) followed by the `getattr` values of the
matching cache row. -/
def dataRow (p : ProfileRow) (g : GameInfo) : List Cell :=
  [Cell.str (storeUrl p.appid), Cell.str p.name,
   Cell.nat p.playtime_forever, Cell.nat p.playtime_windows_forever,
   Cell.nat p.playtime_mac_forever, Cell.nat p.playtime_linux_forever,
   cellOfOptStr g.type, cellOfOptStr g.developers, cellOfOptStr g.publishers,
   cellOfOptBool g.is_free, cellOfOptBool g.on_linux, cellOfOptBool g.on_mac,
   cellOfOptBool g.on_windows, cellOfOptStr g.supported_languages,
   cellOfOptStr g.controller_support, cellOfOptNat g.age_gate,
   cellOfOptStr g.categories, cellOfOptStr g.genres,
   cellOfOptStr g.release_date]

/-- The `for json_row in profile_info:` loop of `finalize_extended_export`:
`games_info[json_row["appid"]]` raises `KeyError` (modelled `none`) when an
appid is absent from the built dictionary, aborting the whole export. -/
def buildRows (lookup : Nat → Option GameInfo) : List ProfileRow → Option (List (List Cell))
  | [] => some []
  | p :: rest =>
      match lookup p.appid with
      | none => none
      | some g => (buildRows lookup rest).map (fun tl => dataRow p g :: tl)

/-- `views.finalize_extended_export` up to the point where the combined
in-memory table is handed to `send_exported_file` (file encoding is out of
scope).  The dictionary comprehension `{row.appid: row for row in ...}`
keeps the last row per appid, hence `getLast?`. -/
def finalize_extended_export (s : Store) (profile_info : List ProfileRow)
    (requested_ids : List Nat) : Option (List (List Cell)) :=
  let rows := in_query_chunked s.cache (fun g => g.appid) requested_ids
                SQLITE_MAX_VARIABLE_NUMBER
  let games_info := fun a => (rows.filter (fun g => g.appid == a)).getLast?
  (buildRows games_info profile_info).map (fun dataRows => headerCells :: dataRows)

/-- `views.check_for_missing_ids`: the requested ids (as a set, i.e.
deduplicated) that have no `games_info` row, computed through the chunked
lookup. -/
def check_for_missing_ids (s : Store) (requested_ids : List Nat) : List Nat :=
  let available :=
    (in_query_chunked s.cache (fun g => g.appid) requested_ids
       SQLITE_MAX_VARIABLE_NUMBER).map (fun g => g.appid)
  requested_ids.dedup.filter (fun a => decide (a ∉ available))

/-- The allowed export formats, from `db.Request.__init__` (and the same
list checked in `views.games_export_config`). -/
def exportFormats : List String := ["ods", "xls", "xlsx", "csv"]

/-- Outcome of a submit (`views.prepare_extended_export`). -/
inductive SubmitResult where
  /-- `query_profile` returned no data: the "no games found" error page. -/
  | noData
  /-- `db.Request.__init__` raised `ValueError` on the format. -/
  | badFormat
  /-- Synchronous path: the finished combined table. -/
  | finalized (table : List (List Cell))
  /-- `KeyError` while assembling the table. -/
  | exportError
  /-- Pending path: job token and the number of newly queued items. -/
  | pending (job_uuid : Nat) (new_count : Nat)
deriving DecidableEq, Repr

/-- Outcome of a poll (`views.check_extended_export` behind `load_job`). -/
inductive PollResult where
  /-- No `db.Request` row for the token: the job cookie is cleared. -/
  | invalidToken
  /-- Some requested ids still lack cache rows: HTTP 202 with the count. -/
  | pending (missing : Nat)
  /-- The finished combined table. -/
  | finalized (table : List (List Cell))
  /-- `KeyError` while assembling the table. -/
  | exportError
deriving DecidableEq, Repr

/-- `views.prepare_extended_export` (submit): `games` is
`profile_json["games"]` when `query_profile` returned data.  When ids are
missing a `db.Request` row (validating the format) and one `db.Queue` row
per missing id not already queued are committed together; otherwise the
table is assembled synchronously and nothing is persisted.  `now` stands
for the `int(time.time())` reads and `uuid` for the fresh `uuid4()`. -/
def prepare_extended_export (s : Store) (games : Option (List ProfileRow))
    (fmt : String) (now uuid : Nat) : SubmitResult × Store :=
  match games with
  | none => (SubmitResult.noData, s)
  | some games =>
      let requested_ids := games.map (fun p => p.appid)
      let missing_ids := check_for_missing_ids s requested_ids
      if missing_ids.isEmpty then
        match finalize_extended_export s games requested_ids with
        | some table => (SubmitResult.finalized table, s)
        | none => (SubmitResult.exportError, s)
      else if fmt ∈ exportFormats then
        let queued_ids : List Nat :=
          (in_query_chunked s.queue (fun q => q.appid) missing_ids
             SQLITE_MAX_VARIABLE_NUMBER).map (fun q => q.appid)
        let still_missing := missing_ids.filter (fun a => decide (a ∉ queued_ids))
        (SubmitResult.pending uuid still_missing.length,
         { s with
             requests := s.requests ++ [⟨uuid, now, games, fmt⟩],
             queue := s.queue ++ still_missing.map (fun a => ⟨a, uuid, now⟩) })
      else (SubmitResult.badFormat, s)

/-- `load_job` followed by `views.check_extended_export` (poll): look the
token up; report pending with the missing count while cache rows are
lacking; otherwise delete the job row and assemble the table. -/
def pollToken (s : Store) (token : Nat) : PollResult × Store :=
  match s.requests.find? (fun r => r.job_uuid == token) with
  | none => (PollResult.invalidToken, s)
  | some job =>
      let requested_ids := job.games_json.map (fun p => p.appid)
      let missing := (check_for_missing_ids s requested_ids).length
      if missing ≠ 0 then (PollResult.pending missing, s)
      else
        let s2 : Store :=
          { s with requests := s.requests.filter (fun r => r.job_uuid != token) }
        match finalize_extended_export s2 job.games_json requested_ids with
        | some table => (PollResult.finalized table, s2)
        | none => (PollResult.exportError, s2)

/-! ## Lemmas about the chunked lookups of `views.py` -/

/-- For an id that was part of the request, appearing among the appids
returned by the chunked cache lookup is exactly having a cache row. -/
theorem mem_available_iff (s : Store) (ids : List Nat) (a : Nat) (ha : a ∈ ids) :
    a ∈ (in_query_chunked s.cache (fun g => g.appid) ids
          SQLITE_MAX_VARIABLE_NUMBER).map (fun g => g.appid)
    ↔ s.cached a = true := by
  simp only [List.mem_map]
  constructor
  · rintro ⟨g, hg, rfl⟩
    have hmem := (mem_in_query_chunked s.cache (fun g => g.appid) ids
      SQLITE_MAX_VARIABLE_NUMBER (by decide) g).mp hg
    exact (Store.cached_iff s g.appid).mpr ⟨g, hmem.1, rfl⟩
  · intro hc
    obtain ⟨g, hgmem, hga⟩ := (Store.cached_iff s a).mp hc
    refine ⟨g, ?_, hga⟩
    refine (mem_in_query_chunked s.cache (fun g => g.appid) ids
      SQLITE_MAX_VARIABLE_NUMBER (by decide) g).mpr ⟨hgmem, ?_⟩
    rw [hga]
    exact ha

/-- The queue-side analogue for the enqueue dedup check of
`prepare_extended_export`. -/
theorem mem_queued_ids_iff (s : Store) (ids : List Nat) (a : Nat) (ha : a ∈ ids) :
    a ∈ (in_query_chunked s.queue (fun q => q.appid) ids
          SQLITE_MAX_VARIABLE_NUMBER).map (fun q => q.appid)
    ↔ s.queued a = true := by
  simp only [List.mem_map]
  constructor
  · rintro ⟨q, hq, rfl⟩
    have hmem := (mem_in_query_chunked s.queue (fun q => q.appid) ids
      SQLITE_MAX_VARIABLE_NUMBER (by decide) q).mp hq
    exact (Store.queued_iff s q.appid).mpr ⟨q, hmem.1, rfl⟩
  · intro hc
    obtain ⟨q, hqmem, hqa⟩ := (Store.queued_iff s a).mp hc
    refine ⟨q, ?_, hqa⟩
    refine (mem_in_query_chunked s.queue (fun q => q.appid) ids
      SQLITE_MAX_VARIABLE_NUMBER (by decide) q).mpr ⟨hqmem, ?_⟩
    rw [hqa]
    exact ha

/-- `check_for_missing_ids` computes exactly the distinct requested ids
without a cache row. -/
theorem check_for_missing_ids_eq (s : Store) (ids : List Nat) :
    check_for_missing_ids s ids = ids.dedup.filter (fun a => !(s.cached a)) := by
  unfold check_for_missing_ids
  apply List.filter_congr
  intro a ha
  have ha2 : a ∈ ids := List.mem_dedup.mp ha
  have hiff := mem_available_iff s ids a ha2
  cases hcc : s.cached a with
  | true =>
      have hav := hiff.mpr hcc
      simp [hav]
  | false =>
      have hav : a ∉ (in_query_chunked s.cache (fun g => g.appid) ids
          SQLITE_MAX_VARIABLE_NUMBER).map (fun g => g.appid) := by
        intro hmem
        rw [hiff] at hmem
        rw [hmem] at hcc
        exact Bool.noConfusion hcc
      simp [hav]

/-! ## Assembling the combined table -/

/-- `buildRows` succeeds when every profile appid resolves, producing one
data row per profile row in order, each starting with the store link of its
profile row's appid. -/
theorem buildRows_spec (lookup : Nat → Option GameInfo) (profile : List ProfileRow)
    (h : ∀ p ∈ profile, (lookup p.appid).isSome) :
    ∃ rs, buildRows lookup profile = some rs ∧ rs.length = profile.length
      ∧ ∀ (i : Nat) (p : ProfileRow), profile[i]? = some p →
          ∃ row, rs[i]? = some row ∧ row[0]? = some (Cell.str (storeUrl p.appid)) := by
  induction profile with
  | nil =>
      refine ⟨[], rfl, rfl, ?_⟩
      intro i p hp
      simp at hp
  | cons p rest ih =>
      have hp := h p (List.mem_cons_self p rest)
      obtain ⟨g, hg⟩ := Option.isSome_iff_exists.mp hp
      obtain ⟨rs, hrs, hlen, hidx⟩ := ih (fun q hq => h q (List.mem_cons_of_mem p hq))
      refine ⟨dataRow p g :: rs, ?_, by simp [hlen], ?_⟩
      · simp [buildRows, hg, hrs]
      · intro i q hq
        cases i with
        | zero =>
            simp only [List.getElem?_cons_zero, Option.some.injEq] at hq
            subst hq
            refine ⟨dataRow p g, by simp, ?_⟩
            simp [dataRow]
        | succ n =>
            simp only [List.getElem?_cons_succ] at hq ⊢
            exact hidx n q hq

/-- When every requested id is cached, `finalize_extended_export` yields a
table with the header plus exactly one data row per profile row, in profile
order, each identifying its input row by the store link. -/
theorem finalize_extended_export_ok (s : Store) (profile : List ProfileRow)
    (h : ∀ p ∈ profile, s.cached p.appid = true) :
    ∃ T, finalize_extended_export s profile (profile.map (fun p => p.appid)) = some T
      ∧ T.length = profile.length + 1
      ∧ ∀ (i : Nat) (p : ProfileRow), profile[i]? = some p →
          ∃ row, T[i + 1]? = some row ∧ row[0]? = some (Cell.str (storeUrl p.appid)) := by
  have hlook : ∀ p ∈ profile,
      (((in_query_chunked s.cache (fun g => g.appid) (profile.map (fun p => p.appid))
          SQLITE_MAX_VARIABLE_NUMBER).filter
          (fun g => g.appid == p.appid)).getLast?).isSome := by
    intro p hpmem
    obtain ⟨g, hgmem, hga⟩ := (Store.cached_iff s p.appid).mp (h p hpmem)
    have hg2 : g ∈ (in_query_chunked s.cache (fun g => g.appid)
        (profile.map (fun p => p.appid)) SQLITE_MAX_VARIABLE_NUMBER) := by
      refine (mem_in_query_chunked s.cache (fun g => g.appid) _
        SQLITE_MAX_VARIABLE_NUMBER (by decide) g).mpr ⟨hgmem, ?_⟩
      exact List.mem_map.mpr ⟨p, hpmem, hga.symm⟩
    have hg3 : g ∈ (in_query_chunked s.cache (fun g => g.appid)
        (profile.map (fun p => p.appid)) SQLITE_MAX_VARIABLE_NUMBER).filter
        (fun g => g.appid == p.appid) :=
      List.mem_filter.mpr ⟨hg2, by simp [hga]⟩
    have hne := List.ne_nil_of_mem hg3
    rw [List.getLast?_isSome]
    exact hne
  obtain ⟨rs, hrs, hlen, hidx⟩ := buildRows_spec
    (fun a => ((in_query_chunked s.cache (fun g => g.appid)
        (profile.map (fun p => p.appid)) SQLITE_MAX_VARIABLE_NUMBER).filter
        (fun g => g.appid == a)).getLast?) profile hlook
  refine ⟨headerCells :: rs, ?_, by simp [hlen], ?_⟩
  · simp only [finalize_extended_export]
    rw [hrs]
    rfl
  · intro i p hp
    simp only [List.getElem?_cons_succ]
    exact hidx i p hp

/-- C7: when every requested identifier already has a cache row, submit
performs the export synchronously: the persistent store is returned
unchanged (no Job row, no QueueEntry row) and the combined table is
produced immediately. -/
theorem sync_submit_no_rows (s : Store) (games : List ProfileRow) (fmt : String)
    (now uuid : Nat) (h : ∀ p ∈ games, s.cached p.appid = true) :
    (prepare_extended_export s (some games) fmt now uuid).2 = s
    ∧ ∃ T, (prepare_extended_export s (some games) fmt now uuid).1
        = SubmitResult.finalized T := by
  have hmiss : check_for_missing_ids s (games.map (fun p => p.appid)) = [] := by
    rw [check_for_missing_ids_eq]
    rw [List.filter_eq_nil_iff]
    intro a ha
    have ha2 := List.mem_dedup.mp ha
    obtain ⟨p, hpmem, hpa⟩ := List.mem_map.mp ha2
    have := h p hpmem
    rw [hpa] at this
    simp [this]
  obtain ⟨T, hT, _, _⟩ := finalize_extended_export_ok s games h
  constructor
  · simp [prepare_extended_export, hmiss, hT]
  · refine ⟨T, ?_⟩
    simp [prepare_extended_export, hmiss, hT]

/-- C7 witness: a submit over a fully cached identifier set, at a concrete
store. -/
theorem sync_submit_no_rows_witness :
    (∀ p ∈ [(⟨1, "A", 2, 3, 4, 5⟩ : ProfileRow)],
        (⟨[], [], [unavailableRow 1 0]⟩ : Store).cached p.appid = true)
    ∧ (prepare_extended_export ⟨[], [], [unavailableRow 1 0]⟩
        (some [⟨1, "A", 2, 3, 4, 5⟩]) "xlsx" 9 0).2 = ⟨[], [], [unavailableRow 1 0]⟩
    ∧ ∃ T, (prepare_extended_export ⟨[], [], [unavailableRow 1 0]⟩
        (some [⟨1, "A", 2, 3, 4, 5⟩]) "xlsx" 9 0).1 = SubmitResult.finalized T :=
  ⟨by decide,
   (sync_submit_no_rows ⟨[], [], [unavailableRow 1 0]⟩ [⟨1, "A", 2, 3, 4, 5⟩]
     "xlsx" 9 0 (by decide)).1,
   (sync_submit_no_rows ⟨[], [], [unavailableRow 1 0]⟩ [⟨1, "A", 2, 3, 4, 5⟩]
     "xlsx" 9 0 (by decide)).2⟩

/-! ## `GameInfoFetcher.run`: the batch-processing loop (C1)

One iteration of the inner `for queue_item in queue_batch:` loop either
finds the appid already cached (delete the entry), gets a row from
`api_session.query_store` (write it, delete the entry, commit), hits a
`requests` network error (HTTPError / Timeout / ConnectionError: call
`_wait` with the rate-limited flag, then `continue` with the next batch
item; the duration is chosen by the guard
`if exc.response and exc.response.status_code == 429:` — see
`backoffDuration` below for why this is 10 units in every case), or hits
any other exception (roll back, bump the entry's timestamp to now, commit,
`_wait(10)` and `break` out of the batch).  Termination checks are not
modelled; `_wait` calls become `waited` events. -/

/-- What `api_session.query_store(appid)` does for one identifier. -/
inductive FetchResult where
  /-- A `db.GameInfo` row came back (a populated `from_json` row, or an
  `unavailable=True` row for a definitive non-success response). -/
  | ok (g : GameInfo)
  /-- `requests.HTTPError` / `requests.Timeout` / `requests.ConnectionError`;
  the argument is `exc.response.status_code` when a response is attached
  (`Timeout` and `ConnectionError` carry none). -/
  | netError (code : Option Nat)
  /-- Any other exception. -/
  | unexpected
deriving DecidableEq, Repr

/-- Observable effects of a worker pass: each `self._wait(timeout,
rate_limited)` call. -/
inductive WorkerEvent where
  | waited (timeout : Option Nat) (rate_limited : Bool)
deriving DecidableEq, Repr

/-- `db_session.delete(queue_item)`: the row is keyed by its appid. -/
def Store.deleteQueued (s : Store) (a : Nat) : Store :=
  { s with queue := s.queue.filter (fun q => decide (q.appid ≠ a)) }

/-- `bool(exc.response)`: `requests.Response.__bool__` returns `self.ok`,
which is true exactly when the status code is below 400; the absent
response of a `Timeout` or `ConnectionError` is `None` and falsy. -/
def responseTruthy : Option Nat → Bool
  | some c => decide (c < 400)
  | none => false

/-- Backoff length chosen in the network-error handler, transcribing
`if exc.response and exc.response.status_code == 429:` — Python's `and`
first tests the truthiness of the response.  An `HTTPError` raised by
`raise_for_status` always carries a response with status at least 400,
which is falsy, so the 60-unit rate-limit branch is unreachable and the
worker waits 10 units on every network error (`backoffDuration_eq_10`). -/
def backoffDuration (code : Option Nat) : Nat :=
  if responseTruthy code && (code == some 429) then 60 else 10

/-- The 60-unit branch is dead code: a truthy response has status below
400 and thus never equals 429, so the chosen backoff is always 10. -/
theorem backoffDuration_eq_10 (code : Option Nat) : backoffDuration code = 10 := by
  match code with
  | none => rfl
  | some c =>
      by_cases h : c = 429
      · subst h
        rfl
      · have hbeq : ((some c : Option Nat) == some 429) = false := by
          simp [h]
        simp [backoffDuration, hbeq]

/-- The `for queue_item in queue_batch:` loop of `GameInfoFetcher.run`. -/
def processBatch (fetch : Nat → FetchResult) (now : Nat) :
    List QueueEntry → Store → Store × List WorkerEvent
  | [], s => (s, [])
  | e :: rest, s =>
      if s.cached e.appid then
        processBatch fetch now rest (s.deleteQueued e.appid)
      else
        match fetch e.appid with
        | FetchResult.ok g =>
            let s1 := s.deleteQueued e.appid
            processBatch fetch now rest { s1 with cache := s1.cache ++ [g] }
        | FetchResult.netError code =>
            let r := processBatch fetch now rest s
            (r.1, WorkerEvent.waited (some (backoffDuration code)) true :: r.2)
        | FetchResult.unexpected =>
            let bumped := s.queue.map
              (fun q => if q.appid == e.appid then { q with timestamp := now } else q)
            ({ s with queue := bumped }, [WorkerEvent.waited (some 10) true])

/-- Insert an entry into a timestamp-sorted list, before the first entry
with a later-or-equal timestamp. -/
def insertByTs (e : QueueEntry) : List QueueEntry → List QueueEntry
  | [] => [e]
  | x :: xs =>
      if e.timestamp ≤ x.timestamp then e :: x :: xs else x :: insertByTs e xs

/-- `select(db.Queue).order_by(db.Queue.timestamp.asc())`: a stable
insertion sort by enqueue timestamp (SQLite returns ties in an unspecified
order; the theorems below only rely on the result being a reordering). -/
def sortByTs : List QueueEntry → List QueueEntry
  | [] => []
  | x :: xs => insertByTs x (sortByTs xs)

/-- One iteration of the outer `while True:` loop: read the twenty oldest
queue rows; sleep (`_wait()`, no timeout, flag clear) when there are none,
otherwise process the batch. -/
def workerPass (fetch : Nat → FetchResult) (now : Nat) (s : Store) :
    Store × List WorkerEvent :=
  match (sortByTs s.queue).take 20 with
  | [] => (s, [WorkerEvent.waited none false])
  | e :: rest => processBatch fetch now (e :: rest) s

/-- Iterated worker passes (the continuous drain of the queue). -/
def iterWorker (fetch : Nat → FetchResult) (now : Nat) : Nat → Store → Store
  | 0, s => s
  | n + 1, s => iterWorker fetch now n (workerPass fetch now s).1

/-- Concrete fixture for the recoverable-error behaviour: appid 1
rate-limits, every other appid fetches as unavailable. -/
def rateLimitedFetch : Nat → FetchResult := fun a =>
  if a = 1 then FetchResult.netError (some 429) else FetchResult.ok (unavailableRow a 7)

/-- Concrete store: one job over appids 1 and 2, both still queued (appid 1
enqueued at 5, appid 2 at 6), empty cache. -/
def rateLimitedStore : Store :=
  ⟨[⟨0, 5, [⟨1, "A", 0, 0, 0, 0⟩, ⟨2, "B", 0, 0, 0, 0⟩], "csv"⟩],
   [⟨1, 0, 5⟩, ⟨2, 0, 6⟩], []⟩

/-- C1 counterexample: appid 1's fetch rate-limits during the pass run at
time 100.  The entry survives with its enqueue timestamp still 5 — it is
not bumped to the current time, so it does not strictly increase — and the
rest of the batch is not abandoned: appid 2, behind it in FIFO order, is
fetched and cached in the same pass, after the single rate-limited backoff
wait (of 10 units even for this 429: the error's attached response is
falsy, so the handler's 60-unit branch is never taken). -/
theorem rate_limit_batch_counterexample :
    (workerPass rateLimitedFetch 100 rateLimitedStore).1.queue = [⟨1, 0, 5⟩]
    ∧ (workerPass rateLimitedFetch 100 rateLimitedStore).1.cache
        = [unavailableRow 2 7]
    ∧ (workerPass rateLimitedFetch 100 rateLimitedStore).1.cached 1 = false
    ∧ (workerPass rateLimitedFetch 100 rateLimitedStore).2
        = [WorkerEvent.waited (some 10) true] := by
  refine ⟨by decide, by decide, by decide, by decide⟩

/-- C1 (amended): when the metadata fetch for a queue entry fails with a
recoverable network error (rate-limit, timeout, connection failure), the
queue entry is not deleted and its enqueue timestamp is left unchanged, no
cache row is created for that identifier, and the worker records one
rate-limited backoff wait of 10 units — also on an HTTP 429, because the
handler's 60-unit branch tests the truthiness of the attached response,
which is falsy at status 400 and above — and then continues with the
remaining items of the current batch: the pass ends in exactly the state
reached by processing the rest of the batch from the unchanged store.
(Only the unexpected-exception handler bumps the timestamp and abandons
the batch.) -/
theorem net_error_keeps_entry (fetch : Nat → FetchResult) (now : Nat)
    (e : QueueEntry) (rest : List QueueEntry) (s : Store) (code : Option Nat)
    (hc : s.cached e.appid = false)
    (hf : fetch e.appid = FetchResult.netError code) :
    processBatch fetch now (e :: rest) s
      = ((processBatch fetch now rest s).1,
         WorkerEvent.waited (some 10) true
           :: (processBatch fetch now rest s).2)
    ∧ backoffDuration code = 10 := by
  constructor
  · simp [processBatch, hc, hf, backoffDuration_eq_10]
  · exact backoffDuration_eq_10 code

/-- C1 witness: the amended behaviour at the concrete rate-limited
fixture. -/
theorem net_error_keeps_entry_witness :
    rateLimitedStore.cached 1 = false
    ∧ rateLimitedFetch 1 = FetchResult.netError (some 429)
    ∧ (processBatch rateLimitedFetch 100 [⟨1, 0, 5⟩, ⟨2, 0, 6⟩] rateLimitedStore
        = ((processBatch rateLimitedFetch 100 [⟨2, 0, 6⟩] rateLimitedStore).1,
           WorkerEvent.waited (some 10) true
             :: (processBatch rateLimitedFetch 100 [⟨2, 0, 6⟩] rateLimitedStore).2)
      ∧ backoffDuration (some 429) = 10) :=
  ⟨by decide, by decide,
   net_error_keeps_entry rateLimitedFetch 100 ⟨1, 0, 5⟩ [⟨2, 0, 6⟩]
     rateLimitedStore (some 429) (by decide) (by decide)⟩

/-! ## Worker-pass lemmas -/

theorem mem_insertByTs (e a : QueueEntry) (l : List QueueEntry) :
    a ∈ insertByTs e l ↔ a = e ∨ a ∈ l := by
  induction l with
  | nil => simp [insertByTs]
  | cons x xs ih =>
      by_cases h : e.timestamp ≤ x.timestamp
      · simp [insertByTs, h]
      · simp only [insertByTs, if_neg h, List.mem_cons, ih]
        tauto

theorem mem_sortByTs (a : QueueEntry) (l : List QueueEntry) :
    a ∈ sortByTs l ↔ a ∈ l := by
  induction l with
  | nil => simp [sortByTs]
  | cons x xs ih => simp [sortByTs, mem_insertByTs, ih]

/-- A filter misses a member failing the predicate, hence gets strictly
shorter. -/
theorem length_filter_lt_of_mem {α : Type} (p : α → Bool) (l : List α) (x : α)
    (hx : x ∈ l) (hpx : p x = false) : (l.filter p).length < l.length := by
  induction l with
  | nil => cases hx
  | cons y ys ih =>
      rcases List.mem_cons.mp hx with hxy | hxys
      · subst hxy
        rw [List.filter_cons, hpx]
        simp only [List.length_cons]
        exact Nat.lt_succ_of_le (List.length_filter_le p ys)
      · rw [List.filter_cons]
        cases hpy : p y
        · simp only [List.length_cons]
          exact Nat.lt_succ_of_lt (ih hxys)
        · simp only [List.length_cons]
          exact Nat.succ_lt_succ (ih hxys)

/-- Mapping a membership of one cache into a bigger cache preserves
`cached`. -/
theorem cached_mono {s1 s2 : Store} (h : ∀ g ∈ s1.cache, g ∈ s2.cache)
    {a : Nat} (hc : s1.cached a = true) : s2.cached a = true := by
  obtain ⟨g, hg, hga⟩ := (Store.cached_iff s1 a).mp hc
  exact (Store.cached_iff s2 a).mpr ⟨g, h g hg, hga⟩

/-- Processing a batch never touches the job table and never removes a
cache row. -/
theorem processBatch_frame (fetch : Nat → FetchResult) (now : Nat) :
    ∀ (batch : List QueueEntry) (s : Store),
      (processBatch fetch now batch s).1.requests = s.requests
      ∧ ∀ g ∈ s.cache, g ∈ (processBatch fetch now batch s).1.cache := by
  intro batch
  induction batch with
  | nil => intro s; exact ⟨rfl, fun g hg => hg⟩
  | cons e rest ih =>
      intro s
      by_cases hc : s.cached e.appid = true
      · simp only [processBatch, hc, if_true]
        exact ih (s.deleteQueued e.appid)
      · rw [Bool.not_eq_true] at hc
        cases hf : fetch e.appid with
        | ok g =>
            simp only [processBatch, hc, Bool.false_eq_true, if_false, hf]
            obtain ⟨h1, h2⟩ := ih
              { s.deleteQueued e.appid with cache := (s.deleteQueued e.appid).cache ++ [g] }
            refine ⟨h1, fun x hx => h2 x ?_⟩
            exact List.mem_append.mpr (Or.inl hx)
        | netError code =>
            simp only [processBatch, hc, Bool.false_eq_true, if_false, hf]
            exact ih s
        | unexpected =>
            simp only [processBatch, hc, Bool.false_eq_true, if_false, hf]
            constructor
            · simp
            · intro g hg
              exact hg

/-- With an oracle that always returns a row for the requested appid,
processing a batch removes exactly the batch appids from the queue and
leaves all of them cached. -/
theorem processBatch_drain (fetch : Nat → FetchResult) (now : Nat)
    (hok : ∀ a, ∃ g, fetch a = FetchResult.ok g ∧ g.appid = a) :
    ∀ (batch : List QueueEntry) (s : Store),
      (processBatch fetch now batch s).1.queue
        = s.queue.filter (fun q => decide (q.appid ∉ batch.map (fun e => e.appid)))
      ∧ ∀ a ∈ batch.map (fun e => e.appid),
          (processBatch fetch now batch s).1.cached a = true := by
  intro batch
  induction batch with
  | nil =>
      intro s
      constructor
      · simp [processBatch]
      · intro a ha
        cases ha
  | cons e rest ih =>
      intro s
      have step :
          ∀ s' : Store, s'.queue = s.queue.filter (fun q => decide (q.appid ≠ e.appid)) →
            s'.cached e.appid = true →
            (processBatch fetch now rest s').1.queue
              = s.queue.filter
                  (fun q => decide (q.appid ∉ (e :: rest).map (fun e => e.appid)))
            ∧ ∀ a ∈ (e :: rest).map (fun e => e.appid),
                (processBatch fetch now rest s').1.cached a = true := by
        intro s' hq hcache
        obtain ⟨ihq, ihc⟩ := ih s'
        constructor
        · rw [ihq, hq, List.filter_filter]
          apply List.filter_congr
          intro q _
          simp only [List.map_cons, List.mem_cons, Bool.and_eq_decide, decide_not]
          by_cases h1 : q.appid = e.appid <;> by_cases h2 : q.appid ∈ rest.map (fun e => e.appid) <;>
            simp [h1, h2]
        · intro a ha
          rcases List.mem_cons.mp ha with ha1 | ha2
          · subst ha1
            exact cached_mono (processBatch_frame fetch now rest s').2 hcache
          · exact ihc a ha2
      by_cases hc : s.cached e.appid = true
      · simp only [processBatch, hc, if_true]
        refine step (s.deleteQueued e.appid) rfl ?_
        exact hc
      · rw [Bool.not_eq_true] at hc
        obtain ⟨g, hf, hga⟩ := hok e.appid
        simp only [processBatch, hc, Bool.false_eq_true, if_false, hf]
        refine step _ rfl ?_
        show Store.cached _ e.appid = true
        refine (Store.cached_iff _ e.appid).mpr ⟨g, ?_, hga⟩
        exact List.mem_append.mpr (Or.inr (List.mem_cons_self g []))

/-- One worker pass with an always-successful oracle: the job table is
untouched, the cache only grows, the queue strictly shrinks unless already
empty, and every old queue entry either survives or has its appid
cached. -/
theorem workerPass_drain (fetch : Nat → FetchResult) (now : Nat)
    (hok : ∀ a, ∃ g, fetch a = FetchResult.ok g ∧ g.appid = a) (s : Store) :
    (workerPass fetch now s).1.requests = s.requests
    ∧ (∀ g ∈ s.cache, g ∈ (workerPass fetch now s).1.cache)
    ∧ (s.queue = [] → (workerPass fetch now s).1 = s)
    ∧ (s.queue ≠ [] → (workerPass fetch now s).1.queue.length < s.queue.length)
    ∧ (∀ e ∈ s.queue,
        e ∈ (workerPass fetch now s).1.queue
          ∨ (workerPass fetch now s).1.cached e.appid = true) := by
  cases hbatch : (sortByTs s.queue).take 20 with
  | nil =>
      have hq : s.queue = [] := by
        cases hq2 : s.queue with
        | nil => rfl
        | cons x xs =>
            exfalso
            have hx : x ∈ sortByTs s.queue := by
              rw [mem_sortByTs, hq2]
              exact List.mem_cons_self x xs
            cases hsort : sortByTs s.queue with
            | nil => rw [hsort] at hx; cases hx
            | cons y ys =>
                rw [hsort] at hbatch
                simp [List.take_succ_cons] at hbatch
      refine ⟨?_, ?_, ?_, ?_, ?_⟩ <;>
        simp_all [workerPass, hbatch]
  | cons b bs =>
      have hpass : workerPass fetch now s = processBatch fetch now (b :: bs) s := by
        rw [workerPass, hbatch]
      obtain ⟨hfr, hfc⟩ := processBatch_frame fetch now (b :: bs) s
      obtain ⟨hdq, hdc⟩ := processBatch_drain fetch now hok (b :: bs) s
      have hbmem : b ∈ s.queue := by
        have : b ∈ (sortByTs s.queue).take 20 := by
          rw [hbatch]
          exact List.mem_cons_self b bs
        exact (mem_sortByTs b s.queue).mp (List.mem_of_mem_take this)
      refine ⟨by rw [hpass]; exact hfr, by rw [hpass]; exact hfc, ?_, ?_, ?_⟩
      · intro hq
        rw [hq] at hbmem
        cases hbmem
      · intro _
        rw [hpass, hdq]
        refine length_filter_lt_of_mem _ s.queue b hbmem ?_
        simp only [List.map_cons, List.mem_cons, decide_not]
        simp
      · intro e he
        rw [hpass, hdq]
        by_cases hin : e.appid ∈ (b :: bs).map (fun e => e.appid)
        · right
          exact hdc e.appid hin
        · left
          refine List.mem_filter.mpr ⟨he, ?_⟩
          simp only [decide_eq_true_eq]
          exact hin

/-- Iterating worker passes with enough fuel fully drains the queue: the
job table is unchanged, no cache row is lost, and every formerly queued
appid ends up cached. -/
theorem iterWorker_drain (fetch : Nat → FetchResult) (now : Nat)
    (hok : ∀ a, ∃ g, fetch a = FetchResult.ok g ∧ g.appid = a) :
    ∀ (n : Nat) (s : Store), s.queue.length ≤ n →
      (iterWorker fetch now n s).queue = []
      ∧ (iterWorker fetch now n s).requests = s.requests
      ∧ (∀ g ∈ s.cache, g ∈ (iterWorker fetch now n s).cache)
      ∧ ∀ e ∈ s.queue, (iterWorker fetch now n s).cached e.appid = true := by
  intro n
  induction n with
  | zero =>
      intro s hs
      have hq : s.queue = [] := List.eq_nil_of_length_eq_zero (Nat.le_zero.mp hs)
      refine ⟨hq, rfl, fun g hg => hg, ?_⟩
      intro e he
      rw [hq] at he
      cases he
  | succ n ih =>
      intro s hs
      obtain ⟨hfr, hfc, hemp, hlen, hsurv⟩ := workerPass_drain fetch now hok s
      by_cases hq : s.queue = []
      · have hpass := hemp hq
        show _ ∧ _ ∧ _ ∧ _
        rw [iterWorker, hpass]
        obtain ⟨a1, a2, a3, a4⟩ := ih s (by rw [hq]; exact Nat.zero_le n)
        exact ⟨a1, a2, a3, a4⟩
      · have hlt := hlen hq
        have hle : (workerPass fetch now s).1.queue.length ≤ n := by omega
        obtain ⟨a1, a2, a3, a4⟩ := ih (workerPass fetch now s).1 hle
        rw [iterWorker]
        refine ⟨a1, by rw [a2, hfr], fun g hg => a3 g (hfc g hg), ?_⟩
        intro e he
        rcases hsurv e he with hsv | hcch
        · exact a4 e hsv
        · exact cached_mono a3 hcch

/-! ## Store invariants and the transition system -/

/-- Invariants of every reachable store state: both keyed tables have
pairwise-distinct appids (their SQLite primary keys), a queued appid never
already has a cache row, and every identifier of every outstanding job is
either cached or queued (so a drained job is fully cached). -/
structure StoreInv (s : Store) : Prop where
  cacheKeys : s.cache.Pairwise (fun g1 g2 => g1.appid ≠ g2.appid)
  queueKeys : s.queue.Pairwise (fun q1 q2 => q1.appid ≠ q2.appid)
  queueFresh : ∀ q ∈ s.queue, s.cached q.appid = false
  jobsCovered : ∀ r ∈ s.requests, ∀ p ∈ r.games_json,
    s.cached p.appid = true ∨ s.queued p.appid = true

theorem cached_cache_append (s : Store) (g : GameInfo) (rest : List QueueEntry)
    (reqs : List Request) (b : Nat) :
    (Store.mk reqs rest (s.cache ++ [g])).cached b = (s.cached b || (g.appid == b)) := by
  simp [Store.cached, List.any_append]

theorem queued_append_left (reqs : List Request) (q1 q2 : List QueueEntry)
    (cache : List GameInfo) (b : Nat) (h : (Store.mk reqs q1 cache).queued b = true) :
    (Store.mk reqs (q1 ++ q2) cache).queued b = true := by
  simp only [Store.queued, List.any_append, Bool.or_eq_true]
  simp only [Store.queued] at h
  exact Or.inl h

/-- Deleting the queue rows of a cached appid preserves the invariants. -/
theorem StoreInv_deleteQueued (s : Store) (a : Nat) (h : StoreInv s)
    (hc : s.cached a = true) : StoreInv (s.deleteQueued a) := by
  refine ⟨h.cacheKeys, ?_, ?_, ?_⟩
  · exact List.Pairwise.sublist (List.filter_sublist s.queue) h.queueKeys
  · intro q hq
    exact h.queueFresh q (List.mem_filter.mp hq).1
  · intro r hr p hp
    rcases h.jobsCovered r hr p hp with hcch | hqd
    · exact Or.inl hcch
    · obtain ⟨q, hqmem, hqa⟩ := (Store.queued_iff s p.appid).mp hqd
      by_cases hpa : p.appid = a
      · rw [hpa]
        exact Or.inl hc
      · refine Or.inr ((Store.queued_iff _ p.appid).mpr ⟨q, ?_, hqa⟩)
        refine List.mem_filter.mpr ⟨hqmem, ?_⟩
        simp only [decide_eq_true_eq]
        rw [hqa]
        exact hpa

/-- Writing the fetched row for an uncached appid and deleting its queue
rows preserves the invariants. -/
theorem StoreInv_okInsert (s : Store) (a : Nat) (g : GameInfo) (h : StoreInv s)
    (hc : s.cached a = false) (hga : g.appid = a) :
    StoreInv
      { s.deleteQueued a with cache := (s.deleteQueued a).cache ++ [g] } := by
  have hnotc : ∀ x ∈ s.cache, x.appid ≠ g.appid := by
    intro x hx hxa
    have : s.cached a = true := (Store.cached_iff s a).mpr ⟨x, hx, by rw [hxa, hga]⟩
    rw [this] at hc
    exact Bool.noConfusion hc
  refine ⟨?_, ?_, ?_, ?_⟩
  · rw [List.pairwise_append]
    refine ⟨h.cacheKeys, List.pairwise_singleton _ g, ?_⟩
    intro x hx y hy
    rw [List.mem_singleton.mp hy]
    exact hnotc x hx
  · exact List.Pairwise.sublist (List.filter_sublist s.queue) h.queueKeys
  · intro q hq
    obtain ⟨hqmem, hqne⟩ := List.mem_filter.mp hq
    simp only [decide_eq_true_eq] at hqne
    rw [cached_cache_append]
    rw [Bool.or_eq_false_iff]
    constructor
    · exact h.queueFresh q hqmem
    · rw [beq_eq_false_iff_ne, hga]
      intro heq
      exact hqne heq.symm
  · intro r hr p hp
    rcases h.jobsCovered r hr p hp with hcch | hqd
    · refine Or.inl ?_
      rw [cached_cache_append]
      show (s.cached p.appid || g.appid == p.appid) = true
      rw [hcch]
      rfl
    · by_cases hpa : p.appid = a
      · refine Or.inl ?_
        rw [cached_cache_append]
        simp [hga, hpa]
      · obtain ⟨q, hqmem, hqa⟩ := (Store.queued_iff s p.appid).mp hqd
        refine Or.inr ((Store.queued_iff _ p.appid).mpr ⟨q, ?_, hqa⟩)
        refine List.mem_filter.mpr ⟨hqmem, ?_⟩
        simp only [decide_eq_true_eq]
        rw [hqa]
        exact hpa

/-- The queue map that bumps one appid's timestamp to the current time. -/
def bumpTs (a now : Nat) (q : QueueEntry) : QueueEntry :=
  if q.appid == a then { q with timestamp := now } else q

theorem bumpTs_appid (a now : Nat) (q : QueueEntry) : (bumpTs a now q).appid = q.appid := by
  unfold bumpTs
  by_cases hq : q.appid == a
  · simp [hq]
  · simp [hq]

/-- Bumping the timestamp of one appid's queue rows preserves the
invariants (appids are untouched). -/
theorem StoreInv_bump (s : Store) (a now : Nat) (h : StoreInv s) :
    StoreInv { s with queue := s.queue.map (bumpTs a now) } := by
  refine ⟨h.cacheKeys, ?_, ?_, ?_⟩
  · rw [List.pairwise_map]
    refine h.queueKeys.imp ?_
    intro q1 q2 hne
    rw [bumpTs_appid, bumpTs_appid]
    exact hne
  · intro q hq
    obtain ⟨q0, hq0, hq0e⟩ := List.mem_map.mp hq
    rw [← hq0e]
    show Store.cached _ (bumpTs a now q0).appid = false
    rw [bumpTs_appid]
    exact h.queueFresh q0 hq0
  · intro r hr p hp
    rcases h.jobsCovered r hr p hp with hcch | hqd
    · exact Or.inl hcch
    · refine Or.inr ?_
      obtain ⟨q, hqmem, hqa⟩ := (Store.queued_iff s p.appid).mp hqd
      refine (Store.queued_iff _ p.appid).mpr ⟨bumpTs a now q, ?_, ?_⟩
      · exact List.mem_map_of_mem _ hqmem
      · rw [bumpTs_appid]
        exact hqa

/-- Batch processing preserves the invariants, for any oracle that returns
rows keyed by the requested appid. -/
theorem processBatch_inv (fetch : Nat → FetchResult) (now : Nat)
    (hwf : ∀ a g, fetch a = FetchResult.ok g → g.appid = a) :
    ∀ (batch : List QueueEntry) (s : Store), StoreInv s →
      StoreInv (processBatch fetch now batch s).1 := by
  intro batch
  induction batch with
  | nil => intro s hs; exact hs
  | cons e rest ih =>
      intro s hs
      by_cases hc : s.cached e.appid = true
      · simp only [processBatch, hc, if_true]
        exact ih _ (StoreInv_deleteQueued s e.appid hs hc)
      · rw [Bool.not_eq_true] at hc
        cases hf : fetch e.appid with
        | ok g =>
            simp only [processBatch, hc, Bool.false_eq_true, if_false, hf]
            exact ih _ (StoreInv_okInsert s e.appid g hs hc (hwf e.appid g hf))
        | netError code =>
            simp only [processBatch, hc, Bool.false_eq_true, if_false, hf]
            exact ih s hs
        | unexpected =>
            simp only [processBatch, hc, Bool.false_eq_true, if_false, hf]
            exact StoreInv_bump s e.appid now hs

/-- A worker pass preserves the invariants. -/
theorem workerPass_inv (fetch : Nat → FetchResult) (now : Nat)
    (hwf : ∀ a g, fetch a = FetchResult.ok g → g.appid = a)
    (s : Store) (hs : StoreInv s) : StoreInv (workerPass fetch now s).1 := by
  unfold workerPass
  cases hbatch : (sortByTs s.queue).take 20 with
  | nil => exact hs
  | cons b bs => exact processBatch_inv fetch now hwf (b :: bs) s hs

/-- The ids a pending submit actually enqueues: the distinct uncached
requested ids that are not already queued (the `missing_ids` set after the
queue dedup step of `prepare_extended_export`). -/
def pendingIds (s : Store) (gs : List ProfileRow) : List Nat :=
  (check_for_missing_ids s (gs.map (fun p => p.appid))).filter
    (fun a => decide (a ∉
      (in_query_chunked s.queue (fun q => q.appid)
        (check_for_missing_ids s (gs.map (fun p => p.appid)))
        SQLITE_MAX_VARIABLE_NUMBER).map (fun q => q.appid)))

/-- Reduction of the pending branch of submit. -/
theorem prepare_pending_shape (s : Store) (gs : List ProfileRow) (fmt : String)
    (now uuid : Nat)
    (h1 : (check_for_missing_ids s (gs.map (fun p => p.appid))).isEmpty = false)
    (h2 : fmt ∈ exportFormats) :
    prepare_extended_export s (some gs) fmt now uuid
      = (SubmitResult.pending uuid (pendingIds s gs).length,
         Store.mk (s.requests ++ [⟨uuid, now, gs, fmt⟩])
           (s.queue ++ (pendingIds s gs).map (fun a => ⟨a, uuid, now⟩)) s.cache) := by
  simp [prepare_extended_export, pendingIds, h1, h2]

theorem pendingIds_sub_missing (s : Store) (gs : List ProfileRow) :
    ∀ a ∈ pendingIds s gs, a ∈ check_for_missing_ids s (gs.map (fun p => p.appid)) := by
  intro a ha
  exact (List.mem_filter.mp ha).1

theorem mem_check_missing_iff (s : Store) (ids : List Nat) (a : Nat) :
    a ∈ check_for_missing_ids s ids ↔ a ∈ ids ∧ s.cached a = false := by
  rw [check_for_missing_ids_eq]
  simp only [List.mem_filter, List.mem_dedup, Bool.not_eq_true']

theorem pendingIds_uncached (s : Store) (gs : List ProfileRow) :
    ∀ a ∈ pendingIds s gs, s.cached a = false := by
  intro a ha
  exact ((mem_check_missing_iff s _ a).mp (pendingIds_sub_missing s gs a ha)).2

theorem pendingIds_unqueued (s : Store) (gs : List ProfileRow) :
    ∀ a ∈ pendingIds s gs, s.queued a = false := by
  intro a ha
  obtain ⟨hmem, hdec⟩ := List.mem_filter.mp ha
  simp only [decide_eq_true_eq] at hdec
  cases hq : s.queued a with
  | false => rfl
  | true =>
      exfalso
      exact hdec ((mem_queued_ids_iff s _ a hmem).mpr hq)

theorem pendingIds_nodup (s : Store) (gs : List ProfileRow) :
    (pendingIds s gs).Nodup := by
  refine List.Nodup.filter _ ?_
  rw [check_for_missing_ids_eq]
  exact List.Nodup.filter _ (List.nodup_dedup _)

/-- An uncached requested id is in the missing set. -/
theorem mem_missing_of_uncached (s : Store) (gs : List ProfileRow) (p : ProfileRow)
    (hp : p ∈ gs) (hc : s.cached p.appid = false) :
    p.appid ∈ check_for_missing_ids s (gs.map (fun p => p.appid)) :=
  (mem_check_missing_iff s _ p.appid).mpr ⟨List.mem_map.mpr ⟨p, hp, rfl⟩, hc⟩

/-- Submit preserves the invariants. -/
theorem prepare_inv (s : Store) (games : Option (List ProfileRow)) (fmt : String)
    (now uuid : Nat) (hs : StoreInv s) :
    StoreInv (prepare_extended_export s games fmt now uuid).2 := by
  cases games with
  | none => exact hs
  | some gs =>
      by_cases h1 : (check_for_missing_ids s (gs.map (fun p => p.appid))).isEmpty = true
      · have : (prepare_extended_export s (some gs) fmt now uuid).2 = s := by
          simp only [prepare_extended_export, h1, if_true]
          cases finalize_extended_export s gs (gs.map (fun p => p.appid)) <;> rfl
        rw [this]
        exact hs
      · rw [Bool.not_eq_true] at h1
        by_cases h2 : fmt ∈ exportFormats
        · rw [prepare_pending_shape s gs fmt now uuid h1 h2]
          refine ⟨hs.cacheKeys, ?_, ?_, ?_⟩
          · rw [List.pairwise_append]
            refine ⟨hs.queueKeys, ?_, ?_⟩
            · rw [List.pairwise_map]
              have hnd := pendingIds_nodup s gs
              refine hnd.imp ?_
              intro a b hab
              exact hab
            · intro q hq e he
              obtain ⟨a, ha, hae⟩ := List.mem_map.mp he
              rw [← hae]
              intro hqa
              have : s.queued a = true :=
                (Store.queued_iff s a).mpr ⟨q, hq, hqa⟩
              rw [pendingIds_unqueued s gs a ha] at this
              exact Bool.noConfusion this
          · intro q hq
            rcases List.mem_append.mp hq with hq1 | hq2
            · exact hs.queueFresh q hq1
            · obtain ⟨a, ha, hae⟩ := List.mem_map.mp hq2
              rw [← hae]
              exact pendingIds_uncached s gs a ha
          · intro r hr p hp
            rcases List.mem_append.mp hr with hr1 | hr2
            · rcases hs.jobsCovered r hr1 p hp with hcch | hqd
              · exact Or.inl hcch
              · refine Or.inr ?_
                exact queued_append_left s.requests s.queue _ s.cache p.appid hqd
            · have hreq : r = ⟨uuid, now, gs, fmt⟩ := List.mem_singleton.mp hr2
              subst hreq
              simp only at hp
              cases hc : s.cached p.appid with
              | true => exact Or.inl hc
              | false =>
                  have hmiss := mem_missing_of_uncached s gs p hp hc
                  by_cases hqid : p.appid ∈
                      (in_query_chunked s.queue (fun q => q.appid)
                        (check_for_missing_ids s (gs.map (fun p => p.appid)))
                        SQLITE_MAX_VARIABLE_NUMBER).map (fun q => q.appid)
                  · refine Or.inr ?_
                    have hqd := (mem_queued_ids_iff s _ p.appid hmiss).mp hqid
                    exact queued_append_left s.requests s.queue _ s.cache p.appid hqd
                  · refine Or.inr ?_
                    have hpend : p.appid ∈ pendingIds s gs :=
                      List.mem_filter.mpr ⟨hmiss, by simp only [decide_eq_true_eq]; exact hqid⟩
                    refine (Store.queued_iff _ p.appid).mpr
                      ⟨⟨p.appid, uuid, now⟩, ?_, rfl⟩
                    refine List.mem_append.mpr (Or.inr ?_)
                    exact List.mem_map.mpr ⟨p.appid, hpend, rfl⟩
        · have : (prepare_extended_export s (some gs) fmt now uuid).2 = s := by
            simp [prepare_extended_export, h1, h2]
          rw [this]
          exact hs

/-- Poll preserves the invariants. -/
theorem pollToken_inv (s : Store) (token : Nat) (hs : StoreInv s) :
    StoreInv (pollToken s token).2 := by
  have hinv2 : StoreInv
      { s with requests := s.requests.filter (fun r => r.job_uuid != token) } := by
    refine ⟨hs.cacheKeys, hs.queueKeys, hs.queueFresh, ?_⟩
    intro r hr p hp
    exact hs.jobsCovered r (List.mem_filter.mp hr).1 p hp
  unfold pollToken
  split
  · exact hs
  · dsimp only
    split
    · exact hs
    · split
      · exact hinv2
      · exact hinv2

/-- The maintenance cleanup preserves the invariants. -/
theorem cleanup_inv (now : Nat) (s : Store) (hs : StoreInv s) :
    StoreInv (cleanup now s) := by
  refine ⟨hs.cacheKeys, hs.queueKeys, hs.queueFresh, ?_⟩
  intro r hr p hp
  exact hs.jobsCovered r (List.mem_filter.mp hr).1 p hp

/-- The atomic transactions of the system, as they interleave on the shared
store: a submit (with a fresh uuid, as `uuid4` provides), a worker pass
(with an oracle keyed by the requested appid, as `query_store` guarantees),
a poll, and the scheduled cleanup. -/
inductive Step : Store → Store → Prop where
  | submit (s : Store) (games : Option (List ProfileRow)) (fmt : String) (now uuid : Nat)
      (hfresh : s.requests.find? (fun r => r.job_uuid == uuid) = none) :
      Step s (prepare_extended_export s games fmt now uuid).2
  | worker (s : Store) (fetch : Nat → FetchResult) (now : Nat)
      (hwf : ∀ a g, fetch a = FetchResult.ok g → g.appid = a) :
      Step s (workerPass fetch now s).1
  | poll (s : Store) (token : Nat) : Step s (pollToken s token).2
  | maintain (s : Store) (now : Nat) : Step s (cleanup now s)

/-- Store states reachable from the freshly initialized database. -/
inductive Reachable : Store → Prop where
  | init : Reachable emptyStore
  | step {s t : Store} : Reachable s → Step s t → Reachable t

/-- Every reachable store state satisfies the invariants. -/
theorem reachable_inv {s : Store} (hs : Reachable s) : StoreInv s := by
  induction hs with
  | init =>
      refine ⟨List.Pairwise.nil, List.Pairwise.nil, ?_, ?_⟩
      · intro q hq
        cases hq
      · intro r hr
        cases hr
  | step _ hstep ih =>
      cases hstep with
      | submit games fmt now uuid hfresh => exact prepare_inv _ games fmt now uuid ih
      | worker fetch now hwf => exact workerPass_inv fetch now hwf _ ih
      | poll token => exact pollToken_inv _ token ih
      | maintain now => exact cleanup_inv now _ ih

/-! ## Reachable-state demonstration fixture -/

/-- A stub metadata source: every queried appid resolves to an
unavailable-row (the deterministic stub the test suite also uses). -/
def demoFetch : Nat → FetchResult := fun a => FetchResult.ok (unavailableRow a 7)

theorem demoFetch_wf : ∀ a g, demoFetch a = FetchResult.ok g → g.appid = a := by
  intro a g h
  simp only [demoFetch, FetchResult.ok.injEq] at h
  rw [← h]
  rfl

def demoGames : List ProfileRow := [⟨1, "A", 0, 0, 0, 0⟩]

def demoSubmitted : Store :=
  (prepare_extended_export emptyStore (some demoGames) "csv" 5 0).2

def demoDrained : Store := (workerPass demoFetch 7 demoSubmitted).1

theorem demoSubmitted_reachable : Reachable demoSubmitted :=
  Reachable.step Reachable.init (Step.submit emptyStore (some demoGames) "csv" 5 0 rfl)

theorem demoDrained_reachable : Reachable demoDrained :=
  Reachable.step demoSubmitted_reachable (Step.worker demoSubmitted demoFetch 7 demoFetch_wf)

/-- C6: in every reachable store state the cache holds at most one row per
game identifier — no sequence of submits, worker passes, polls and cleanup
runs, overlapping identifier sets included, produces two cache rows for one
identifier. -/
theorem cache_at_most_one_row (s : Store) (hs : Reachable s) :
    s.cache.Pairwise (fun g1 g2 => g1.appid ≠ g2.appid) :=
  (reachable_inv hs).cacheKeys

/-- C6 witness: the uniqueness property at a concrete reachable state
(a submit followed by a worker pass that cached the requested id). -/
theorem cache_at_most_one_row_witness :
    demoDrained.cache.Pairwise (fun g1 g2 => g1.appid ≠ g2.appid) :=
  cache_at_most_one_row demoDrained demoDrained_reachable

/-! ## Poll case analysis (C5) -/

theorem find?_filter_ne_none (rs : List Request) (token : Nat) :
    (rs.filter (fun r => r.job_uuid != token)).find?
      (fun r => r.job_uuid == token) = none := by
  rw [List.find?_eq_none]
  intro r hr
  have h2 := (List.mem_filter.mp hr).2
  simp only [bne_iff_ne, ne_eq] at h2
  simp only [beq_iff_eq]
  exact h2

/-- C5: polling behaviour on a reachable store.  An absent (deleted or
never-issued) token reports an invalid token.  A token whose job has no
remaining queue entries for its identifiers deletes the job row and returns
the finalized export, and a second poll of the same token then reports an
invalid token — the export is handed out exactly once.  A token whose job
still has a queue entry for one of its identifiers reports still-pending
with the count of distinct identifiers missing from the cache. -/
theorem poll_token_cases (s : Store) (hs : Reachable s) (token : Nat) :
    (s.requests.find? (fun r => r.job_uuid == token) = none →
      pollToken s token = (PollResult.invalidToken, s))
    ∧ (∀ job, s.requests.find? (fun r => r.job_uuid == token) = some job →
        (∀ q ∈ s.queue, q.appid ∉ job.games_json.map (fun p => p.appid)) →
        ∃ T, pollToken s token
            = (PollResult.finalized T,
               { s with requests := s.requests.filter (fun r => r.job_uuid != token) })
          ∧ (pollToken
              { s with requests := s.requests.filter (fun r => r.job_uuid != token) }
              token).1 = PollResult.invalidToken)
    ∧ (∀ job, s.requests.find? (fun r => r.job_uuid == token) = some job →
        (∃ q ∈ s.queue, q.appid ∈ job.games_json.map (fun p => p.appid)) →
        pollToken s token
          = (PollResult.pending
              ((job.games_json.map (fun p => p.appid)).dedup.filter
                  (fun a => !(s.cached a))).length, s)) := by
  refine ⟨?_, ?_, ?_⟩
  · intro h
    simp [pollToken, h]
  · intro job hfind hnoq
    have hjob : job ∈ s.requests := List.mem_of_find?_eq_some hfind
    have hall : ∀ p ∈ job.games_json, s.cached p.appid = true := by
      intro p hp
      rcases (reachable_inv hs).jobsCovered job hjob p hp with hcch | hqd
      · exact hcch
      · exfalso
        obtain ⟨q, hq, hqa⟩ := (Store.queued_iff s p.appid).mp hqd
        refine hnoq q hq ?_
        rw [hqa]
        exact List.mem_map.mpr ⟨p, hp, rfl⟩
    have hmiss0 : check_for_missing_ids s (job.games_json.map (fun p => p.appid)) = [] := by
      rw [check_for_missing_ids_eq, List.filter_eq_nil_iff]
      intro a ha
      obtain ⟨p, hp, hpa⟩ := List.mem_map.mp (List.mem_dedup.mp ha)
      rw [← hpa, hall p hp]
      simp
    have hall2 : ∀ p ∈ job.games_json,
        ({ s with requests := s.requests.filter (fun r => r.job_uuid != token) }
          : Store).cached p.appid = true := hall
    obtain ⟨T, hT, hTl, hTr⟩ := finalize_extended_export_ok
      { s with requests := s.requests.filter (fun r => r.job_uuid != token) }
      job.games_json hall2
    refine ⟨T, ?_, ?_⟩
    · simp [pollToken, hfind, hmiss0, hT]
    · have hfind2 := find?_filter_ne_none s.requests token
      simp [pollToken, hfind2]
  · intro job hfind ⟨q, hq, hqa⟩
    have hqf := (reachable_inv hs).queueFresh q hq
    have hmem : q.appid ∈
        check_for_missing_ids s (job.games_json.map (fun p => p.appid)) :=
      (mem_check_missing_iff s _ q.appid).mpr ⟨hqa, hqf⟩
    have hne : check_for_missing_ids s (job.games_json.map (fun p => p.appid)) ≠ [] :=
      List.ne_nil_of_mem hmem
    have hlen : (check_for_missing_ids s
        (job.games_json.map (fun p => p.appid))).length ≠ 0 := by
      intro h0
      exact hne (List.eq_nil_of_length_eq_zero h0)
    rw [check_for_missing_ids_eq] at hlen
    simp [pollToken, hfind, check_for_missing_ids_eq, hlen]

/-- C5 witness: the three-way case split instantiated at the drained
demonstration store and its token. -/
theorem poll_token_cases_witness :
    (demoDrained.requests.find? (fun r => r.job_uuid == 0) = none →
      pollToken demoDrained 0 = (PollResult.invalidToken, demoDrained))
    ∧ (∀ job, demoDrained.requests.find? (fun r => r.job_uuid == 0) = some job →
        (∀ q ∈ demoDrained.queue, q.appid ∉ job.games_json.map (fun p => p.appid)) →
        ∃ T, pollToken demoDrained 0
            = (PollResult.finalized T,
               { demoDrained with
                   requests := demoDrained.requests.filter (fun r => r.job_uuid != 0) })
          ∧ (pollToken
              { demoDrained with
                  requests := demoDrained.requests.filter (fun r => r.job_uuid != 0) }
              0).1 = PollResult.invalidToken)
    ∧ (∀ job, demoDrained.requests.find? (fun r => r.job_uuid == 0) = some job →
        (∃ q ∈ demoDrained.queue, q.appid ∈ job.games_json.map (fun p => p.appid)) →
        pollToken demoDrained 0
          = (PollResult.pending
              ((job.games_json.map (fun p => p.appid)).dedup.filter
                  (fun a => !(demoDrained.cached a))).length, demoDrained)) :=
  poll_token_cases demoDrained demoDrained_reachable 0

/-! ## The submit / drain / poll round trip (C4) -/

/-- The combined table the claim describes: a header row plus exactly one
data row per input profile row, in input order, each data row led by the
store link of its input row's identifier. -/
def tableSpec (games : List ProfileRow) (T : List (List Cell)) : Prop :=
  T.length = games.length + 1
  ∧ ∀ (i : Nat) (p : ProfileRow), games[i]? = some p →
      ∃ row, T[i + 1]? = some row ∧ row[0]? = some (Cell.str (storeUrl p.appid))

/-- Fully draining the queue of a store that holds a job whose identifiers
are each cached or queued, then polling the job's token, hands out the
finalized combined table. -/
theorem drained_poll_ok (fetch : Nat → FetchResult) (now2 uuid : Nat)
    (hok : ∀ a, ∃ g, fetch a = FetchResult.ok g ∧ g.appid = a)
    (S1 : Store) (games : List ProfileRow) (req : Request)
    (hreq2 : req.games_json = games)
    (hfind : S1.requests.find? (fun r => r.job_uuid == uuid) = some req)
    (hcov : ∀ p ∈ games,
      S1.cached p.appid = true ∨ ∃ q ∈ S1.queue, q.appid = p.appid) :
    ∃ T s3, pollToken (iterWorker fetch now2 S1.queue.length S1) uuid
        = (PollResult.finalized T, s3) ∧ tableSpec games T := by
  obtain ⟨d1, d2, d3, d4⟩ :=
    iterWorker_drain fetch now2 hok S1.queue.length S1 (Nat.le_refl _)
  have hallc : ∀ p ∈ games,
      (iterWorker fetch now2 S1.queue.length S1).cached p.appid = true := by
    intro p hp
    rcases hcov p hp with hc | ⟨q, hq, hqa⟩
    · exact cached_mono d3 hc
    · have := d4 q hq
      rw [hqa] at this
      exact this
  have hfind2 : (iterWorker fetch now2 S1.queue.length S1).requests.find?
      (fun r => r.job_uuid == uuid) = some req := by
    rw [d2]
    exact hfind
  have hmiss2 : check_for_missing_ids (iterWorker fetch now2 S1.queue.length S1)
      (req.games_json.map (fun p => p.appid)) = [] := by
    rw [check_for_missing_ids_eq, List.filter_eq_nil_iff]
    intro a ha
    obtain ⟨p, hp, hpa⟩ := List.mem_map.mp (List.mem_dedup.mp ha)
    rw [hreq2] at hp
    rw [← hpa, hallc p hp]
    simp
  have hallc2 : ∀ p ∈ games,
      ({ iterWorker fetch now2 S1.queue.length S1 with
          requests := (iterWorker fetch now2 S1.queue.length S1).requests.filter
            (fun r => r.job_uuid != uuid) } : Store).cached p.appid = true := hallc
  obtain ⟨T, hT, hTl, hTr⟩ := finalize_extended_export_ok
    { iterWorker fetch now2 S1.queue.length S1 with
        requests := (iterWorker fetch now2 S1.queue.length S1).requests.filter
          (fun r => r.job_uuid != uuid) } games hallc2
  rw [hreq2] at hmiss2
  have hfin : finalize_extended_export
      { iterWorker fetch now2 S1.queue.length S1 with
          requests := (iterWorker fetch now2 S1.queue.length S1).requests.filter
            (fun r => r.job_uuid != uuid) }
      req.games_json (req.games_json.map (fun p => p.appid)) = some T := by
    rw [hreq2]
    exact hT
  refine ⟨T,
    { iterWorker fetch now2 S1.queue.length S1 with
        requests := (iterWorker fetch now2 S1.queue.length S1).requests.filter
          (fun r => r.job_uuid != uuid) }, ?_, hTl, hTr⟩
  simp [pollToken, hfind2, hreq2, hmiss2, hT]

/-- C4: for every identifier list, a submit whose queue is then fully
drained (enough worker passes under a metadata source that resolves every
item), followed by a poll of the issued token, yields a combined table with
exactly one data row per input identifier, the data rows in the same order
as the input list; when nothing was missing the submit already returns such
a table synchronously and no poll is needed. -/
theorem submit_drain_poll_roundtrip (s : Store) (games : List ProfileRow)
    (fmt : String) (now uuid now2 : Nat) (fetch : Nat → FetchResult)
    (hfmt : fmt ∈ exportFormats)
    (hfresh : s.requests.find? (fun r => r.job_uuid == uuid) = none)
    (hok : ∀ a, ∃ g, fetch a = FetchResult.ok g ∧ g.appid = a) :
    ((∃ T, (prepare_extended_export s (some games) fmt now uuid).1
        = SubmitResult.finalized T)
      ∨ ∃ n, (prepare_extended_export s (some games) fmt now uuid).1
          = SubmitResult.pending uuid n)
    ∧ (∀ T, (prepare_extended_export s (some games) fmt now uuid).1
          = SubmitResult.finalized T → tableSpec games T)
    ∧ (∀ n, (prepare_extended_export s (some games) fmt now uuid).1
          = SubmitResult.pending uuid n →
        ∃ T s3,
          pollToken
            (iterWorker fetch now2
              (prepare_extended_export s (some games) fmt now uuid).2.queue.length
              (prepare_extended_export s (some games) fmt now uuid).2) uuid
            = (PollResult.finalized T, s3)
          ∧ tableSpec games T) := by
  by_cases h1 : (check_for_missing_ids s (games.map (fun p => p.appid))).isEmpty = true
  · -- synchronous path: everything already cached
    have hnil : check_for_missing_ids s (games.map (fun p => p.appid)) = [] :=
      List.isEmpty_iff.mp h1
    have hallc : ∀ p ∈ games, s.cached p.appid = true := by
      intro p hp
      cases hc : s.cached p.appid with
      | true => rfl
      | false =>
          exfalso
          have := mem_missing_of_uncached s games p hp hc
          rw [hnil] at this
          cases this
    obtain ⟨T0, hT0, hT0l, hT0r⟩ := finalize_extended_export_ok s games hallc
    have hshape : (prepare_extended_export s (some games) fmt now uuid).1
        = SubmitResult.finalized T0 := by
      simp [prepare_extended_export, h1, hT0]
    refine ⟨Or.inl ⟨T0, hshape⟩, ?_, ?_⟩
    · intro T hT
      rw [hshape] at hT
      have hTT : T0 = T := by injection hT
      rw [← hTT]
      exact ⟨hT0l, hT0r⟩
    · intro n hn
      rw [hshape] at hn
      exact SubmitResult.noConfusion hn
  · -- pending path
    rw [Bool.not_eq_true] at h1
    have hshape := prepare_pending_shape s games fmt now uuid h1 hfmt
    have h2 : (prepare_extended_export s (some games) fmt now uuid).2
        = Store.mk (s.requests ++ [⟨uuid, now, games, fmt⟩])
            (s.queue ++ (pendingIds s games).map (fun a => ⟨a, uuid, now⟩))
            s.cache := by
      rw [hshape]
    have h3 : (prepare_extended_export s (some games) fmt now uuid).1
        = SubmitResult.pending uuid (pendingIds s games).length := by
      rw [hshape]
    refine ⟨Or.inr ⟨(pendingIds s games).length, h3⟩, ?_, ?_⟩
    · intro T hT
      rw [h3] at hT
      exact SubmitResult.noConfusion hT
    · intro n hn
      rw [h2]
      refine drained_poll_ok fetch now2 uuid hok _ games ⟨uuid, now, games, fmt⟩
        rfl ?_ ?_
      · show (s.requests ++ [(⟨uuid, now, games, fmt⟩ : Request)]).find? _ = _
        rw [List.find?_append, hfresh]
        simp [List.find?]
      · intro p hp
        cases hc : s.cached p.appid with
        | true => exact Or.inl hc
        | false =>
            refine Or.inr ?_
            have hm := mem_missing_of_uncached s games p hp hc
            by_cases hqid : p.appid ∈
                (in_query_chunked s.queue (fun q => q.appid)
                  (check_for_missing_ids s (games.map (fun p => p.appid)))
                  SQLITE_MAX_VARIABLE_NUMBER).map (fun q => q.appid)
            · obtain ⟨q, hq, hqa⟩ := (Store.queued_iff s p.appid).mp
                ((mem_queued_ids_iff s _ p.appid hm).mp hqid)
              exact ⟨q, List.mem_append.mpr (Or.inl hq), hqa⟩
            · have hpend : p.appid ∈ pendingIds s games :=
                List.mem_filter.mpr
                  ⟨hm, by simp only [decide_eq_true_eq]; exact hqid⟩
              refine ⟨⟨p.appid, uuid, now⟩, ?_, rfl⟩
              exact List.mem_append.mpr
                (Or.inr (List.mem_map.mpr ⟨p.appid, hpend, rfl⟩))

/-- C4 witness: the round trip instantiated on the empty store with one
requested identifier and the deterministic stub metadata source. -/
theorem submit_drain_poll_roundtrip_witness :
    "csv" ∈ exportFormats
    ∧ emptyStore.requests.find? (fun r => r.job_uuid == 0) = none
    ∧ (∀ a, ∃ g, demoFetch a = FetchResult.ok g ∧ g.appid = a)
    ∧ (((∃ T, (prepare_extended_export emptyStore (some demoGames) "csv" 5 0).1
          = SubmitResult.finalized T)
        ∨ ∃ n, (prepare_extended_export emptyStore (some demoGames) "csv" 5 0).1
            = SubmitResult.pending 0 n)
      ∧ (∀ T, (prepare_extended_export emptyStore (some demoGames) "csv" 5 0).1
            = SubmitResult.finalized T → tableSpec demoGames T)
      ∧ (∀ n, (prepare_extended_export emptyStore (some demoGames) "csv" 5 0).1
            = SubmitResult.pending 0 n →
          ∃ T s3,
            pollToken
              (iterWorker demoFetch 7
                (prepare_extended_export emptyStore (some demoGames) "csv" 5 0).2.queue.length
                (prepare_extended_export emptyStore (some demoGames) "csv" 5 0).2) 0
              = (PollResult.finalized T, s3)
            ∧ tableSpec demoGames T)) :=
  ⟨by decide, rfl, fun a => ⟨unavailableRow a 7, rfl, rfl⟩,
   submit_drain_poll_roundtrip emptyStore demoGames "csv" 5 0 7 demoFetch
     (by decide) rfl (fun a => ⟨unavailableRow a 7, rfl, rfl⟩)⟩
